import Mathlib

/-!
Verification development for the `scraper` repository (src/app.py, src/scraper.py).

Python strings are modelled as `List Char` (`S`).  Python `dict`s are modelled as
insertion-ordered association lists with unique keys (`aupd` is dict assignment,
which overwrites in place or appends at the end, exactly like CPython dicts).
Python `set`s are modelled as duplicate-free lists in insertion order; where a
behaviour depends on CPython's (hash-based, seed-randomized) set iteration order
this is flagged at the definition.
-/

set_option maxRecDepth 20000

abbrev S := List Char

/-- Does `needle` occur as a contiguous substring, and if so split the haystack
at the first occurrence: `findSplit sep s = some (pre, post)` with
`s = pre ++ sep ++ post` and `pre` minimal.  Mirrors Python's leftmost search
used by `str.split`, `str.replace` and the `in` operator. -/
def findSplit (sep : S) : S → Option (S × S)
  | [] => none
  | c :: rest =>
    if sep.isPrefixOf (c :: rest) then some ([], (c :: rest).drop sep.length)
    else match findSplit sep rest with
         | none => none
         | some (pre, post) => some (c :: pre, post)

/-- Python `needle in hay` (substring containment; empty needle is always in). -/
def pyIn (needle hay : S) : Bool :=
  needle = [] || (findSplit needle hay).isSome

/-- Fuelled worker for `pySplit`. -/
def pySplitF (sep : S) : Nat → S → List S
  | 0, s => [s]
  | n + 1, s =>
    match findSplit sep s with
    | none => [s]
    | some (pre, post) => pre :: pySplitF sep n post

/-- Python `s.split(sep)` for a non-empty separator. -/
def pySplit (sep s : S) : List S := pySplitF sep (s.length + 1) s

/-- Fuelled worker for `pyReplace`. -/
def pyReplaceF (old new : S) : Nat → S → S
  | 0, s => s
  | n + 1, s =>
    match findSplit old s with
    | none => s
    | some (pre, post) => pre ++ new ++ pyReplaceF old new n post

/-- Python `s.replace(old, new)`: single left-to-right pass over non-overlapping
occurrences (so `"///".replace("//","/") = "//"`, not `"/"`). -/
def pyReplace (old new s : S) : S := pyReplaceF old new (s.length + 1) s

/-- Whitespace for Python `str.strip()` with no arguments. -/
def pySpace (c : Char) : Bool :=
  c.isWhitespace || c = '\x0b' || c = '\x0c'

/-- Python `s.lstrip(chars)`. -/
def pyLStrip (chars s : S) : S := s.dropWhile (fun c => c ∈ chars)

/-- Python `s.rstrip(chars)`. -/
def pyRStrip (chars s : S) : S := (s.reverse.dropWhile (fun c => c ∈ chars)).reverse

/-- Python `s.strip(chars)`. -/
def pyStripChars (chars s : S) : S := pyRStrip chars (pyLStrip chars s)

/-- Python `s.strip()` (no arguments: strips whitespace). -/
def pyStrip (s : S) : S :=
  ((s.dropWhile pySpace).reverse.dropWhile pySpace).reverse

/-- ASCII lower-casing of one character, as CPython does on ASCII input. -/
def pyLowerChar (c : Char) : Char :=
  if 'A' ≤ c ∧ c ≤ 'Z' then Char.ofNat (c.toNat + 32) else c

/-- ASCII upper-casing of one character. -/
def pyUpperChar (c : Char) : Char :=
  if 'a' ≤ c ∧ c ≤ 'z' then Char.ofNat (c.toNat - 32) else c

/-- Python `s.lower()` (inputs in this program are ASCII). -/
def pyLower (s : S) : S := s.map pyLowerChar

/-- Python `s.upper()`. -/
def pyUpper (s : S) : S := s.map pyUpperChar

/-- Python `s.startswith(p)`. -/
def pyStartsWith (p s : S) : Bool := p.isPrefixOf s

/-- Python `s.split(sep)[0]`: the text before the first occurrence of `sep`
(the whole string when `sep` does not occur). -/
def beforeFirst (sep s : S) : S :=
  match findSplit sep s with
  | none => s
  | some (pre, _) => pre

/-- Python `s.split(sep)[1]` guarded by `sep in s`: the text between the first
and second occurrence of `sep` (up to the end when `sep` occurs once). -/
def secondPart (sep s : S) : S := (pySplit sep s).getD 1 []

example : pySplit "/".data "a//b".data = ["a".data, [], "b".data] := by decide
example : pyReplace "//".data "/".data "///".data = "//".data := by decide
example : pyIn "LO W".data "HELLO WORLD".data = true := by decide
example : pyStrip "  a b\t\n".data = "a b".data := by decide
example : pyLower "AbC:/".data = "abc:/".data := by decide
example : secondPart "X:".data "aX:bX:c".data = "b".data := by decide
example : beforeFirst "(".data "url (hint)".data = "url ".data := by decide

/-! ### Insertion-ordered dictionaries (CPython `dict`) -/

/-- First-occurrence lookup in an association list; models `d[k]` / `d.get(k)`. -/
def alookup {α : Type} : List (S × α) → S → Option α
  | [], _ => none
  | (k, v) :: rest, k' => if k' = k then some v else alookup rest k'

/-- CPython dict assignment `d[k] = v`: overwrite the first binding of `k`
in place, or append a new binding at the end. -/
def aupd {α : Type} : List (S × α) → S → α → List (S × α)
  | [], k, v => [(k, v)]
  | (k0, v0) :: rest, k, v =>
    if k = k0 then (k0, v) :: rest else (k0, v0) :: aupd rest k v

/-- The key list of an association list (in order). -/
def keysA {α : Type} (m : List (S × α)) : List S := m.map Prod.fst

@[simp] theorem keysA_nil {α : Type} : keysA ([] : List (S × α)) = [] := rfl

@[simp] theorem keysA_cons {α : Type} (k : S) (v : α) (m : List (S × α)) :
    keysA ((k, v) :: m) = k :: keysA m := rfl

@[simp] theorem alookup_nil {α : Type} (k : S) : alookup ([] : List (S × α)) k = none := rfl

theorem alookup_cons {α : Type} (k0 k : S) (v0 : α) (m : List (S × α)) :
    alookup ((k0, v0) :: m) k = if k = k0 then some v0 else alookup m k := rfl

theorem aupd_cons {α : Type} (k0 k : S) (v0 v : α) (m : List (S × α)) :
    aupd ((k0, v0) :: m) k v
      = if k = k0 then (k0, v) :: m else (k0, v0) :: aupd m k v := rfl

theorem alookup_eq_none {α : Type} (m : List (S × α)) (k : S) (h : k ∉ keysA m) :
    alookup m k = none := by
  induction m with
  | nil => rfl
  | cons p rest ih =>
    obtain ⟨k0, v0⟩ := p
    rw [keysA_cons, List.mem_cons, not_or] at h
    rw [alookup_cons, if_neg h.1]
    exact ih h.2

theorem alookup_mem_keys {α : Type} (m : List (S × α)) (k : S) {v : α}
    (h : alookup m k = some v) : k ∈ keysA m := by
  induction m with
  | nil => exact absurd h (by simp)
  | cons p rest ih =>
    obtain ⟨k0, v0⟩ := p
    rw [alookup_cons] at h
    by_cases hk : k = k0
    · rw [keysA_cons, hk]
      exact List.mem_cons_self k0 _
    · rw [if_neg hk] at h
      exact keysA_cons .. ▸ List.mem_cons_of_mem _ (ih h)

theorem aupd_keys {α : Type} (m : List (S × α)) (k : S) (v : α) :
    keysA (aupd m k v) = if k ∈ keysA m then keysA m else keysA m ++ [k] := by
  induction m with
  | nil => simp [aupd]
  | cons p rest ih =>
    obtain ⟨k0, v0⟩ := p
    rw [aupd_cons]
    by_cases hk : k = k0
    · subst hk
      simp
    · rw [if_neg hk, keysA_cons, keysA_cons, ih]
      by_cases hm : k ∈ keysA rest
      · rw [if_pos hm, if_pos (by exact List.mem_cons_of_mem _ hm)]
      · rw [if_neg hm, if_neg (by simp [hk, hm]), List.cons_append]

theorem alookup_aupd_self {α : Type} (m : List (S × α)) (k : S) (v : α) :
    alookup (aupd m k v) k = some v := by
  induction m with
  | nil => simp [aupd, alookup]
  | cons p rest ih =>
    obtain ⟨k0, v0⟩ := p
    rw [aupd_cons]
    by_cases hk : k = k0
    · rw [if_pos hk, alookup_cons, if_pos hk]
    · rw [if_neg hk, alookup_cons, if_neg hk]
      exact ih

theorem alookup_aupd_other {α : Type} (m : List (S × α)) (k k' : S) (v : α)
    (h : k' ≠ k) : alookup (aupd m k v) k' = alookup m k' := by
  induction m with
  | nil => simp [aupd, alookup, h]
  | cons p rest ih =>
    obtain ⟨k0, v0⟩ := p
    rw [aupd_cons]
    by_cases hk : k = k0
    · rw [if_pos hk, alookup_cons, alookup_cons, if_neg (hk ▸ h), if_neg (hk ▸ h)]
    · rw [if_neg hk, alookup_cons, alookup_cons]
      by_cases hk' : k' = k0
      · rw [if_pos hk', if_pos hk']
      · rw [if_neg hk', if_neg hk', ih]

/-- Replacing the first binding with the value it already holds is a no-op. -/
theorem aupd_self {α : Type} (m : List (S × α)) (k : S) (v : α)
    (h : alookup m k = some v) : aupd m k v = m := by
  induction m with
  | nil => exact absurd h (by simp)
  | cons p rest ih =>
    obtain ⟨k0, v0⟩ := p
    rw [alookup_cons] at h
    rw [aupd_cons]
    by_cases hk : k = k0
    · rw [if_pos hk] at *
      injection h with h
      rw [h]
    · rw [if_neg hk] at *
      rw [ih h]

/-- Keys are pairwise distinct; holds for every map these programs build. -/
def NodupA {α : Type} (m : List (S × α)) : Prop := (keysA m).Nodup

theorem nodupA_nil {α : Type} : NodupA ([] : List (S × α)) := List.nodup_nil

theorem aupd_nodup {α : Type} (m : List (S × α)) (k : S) (v : α)
    (h : NodupA m) : NodupA (aupd m k v) := by
  unfold NodupA
  rw [aupd_keys]
  by_cases hm : k ∈ keysA m
  · rw [if_pos hm]
    exact h
  · rw [if_neg hm]
    exact List.Nodup.append h (List.nodup_singleton k)
      (by simpa [List.disjoint_singleton] using hm)

theorem alookup_of_mem_nodup {α : Type} (m : List (S × α)) (k : S) (v : α)
    (hnd : NodupA m) (h : (k, v) ∈ m) : alookup m k = some v := by
  induction m with
  | nil => exact absurd h (List.not_mem_nil _)
  | cons p rest ih =>
    obtain ⟨k0, v0⟩ := p
    unfold NodupA at hnd
    rw [keysA_cons, List.nodup_cons] at hnd
    rcases List.mem_cons.mp h with h | h
    · injection h with h1 h2
      subst h1; subst h2
      rw [alookup_cons, if_pos rfl]
    · have hmem : k ∈ keysA rest := List.mem_map_of_mem Prod.fst h
      have hk : k ≠ k0 := by
        intro hc
        rw [hc] at hmem
        exact hnd.1 hmem
      rw [alookup_cons, if_neg hk]
      exact ih hnd.2 h

theorem mem_of_mem_aupd {α : Type} (m : List (S × α)) (k : S) (v : α)
    (kv : S × α) (h : kv ∈ aupd m k v) : kv ∈ m ∨ kv = (k, v) := by
  induction m with
  | nil => simpa [aupd] using h
  | cons p rest ih =>
    obtain ⟨k0, v0⟩ := p
    rw [aupd_cons] at h
    by_cases hk : k = k0
    · rw [if_pos hk] at h
      rcases List.mem_cons.mp h with h | h
      · exact Or.inr (by rw [h, hk])
      · exact Or.inl (List.mem_cons_of_mem _ h)
    · rw [if_neg hk] at h
      rcases List.mem_cons.mp h with h | h
      · exact Or.inl (h ▸ List.mem_cons_self _ _)
      · rcases ih h with h' | h'
        · exact Or.inl (List.mem_cons_of_mem _ h')
        · exact Or.inr h'

/-! ### Field maps and service entries (src/app.py `_update_found_info`) -/

/-- One parsed field map: a CPython dict from field name to value string. -/
abbrev FieldMap := List (S × S)

/-- Python `existing.update(new)` on dicts: fold the new dict's bindings, in
insertion order, into the existing dict (last write wins per key, key positions
preserved, new keys appended). -/
def dictUpdate (e new : FieldMap) : FieldMap :=
  new.foldl (fun acc kv => aupd acc kv.1 kv.2) e

/-- `dictUpdate` folded over a list of dicts (used to characterize repeated
service-entry updates). -/
def dictUpdateFold (e : FieldMap) (l : List FieldMap) : FieldMap :=
  l.foldl dictUpdate e

/-- The value the last dict in `l` holding key `k` gives to it, if any. -/
def lastW (k : S) : List FieldMap → Option S
  | [] => none
  | n :: l =>
    match lastW k l with
    | some v => some v
    | none => alookup n k

/-- `service.get('Name')` — the key services are deduplicated on. -/
def nameOf (e : FieldMap) : Option S := alookup e "Name".data

/-- app.py lines 312-322: merge one freshly-parsed service entry into the
accumulated list — update (via `dict.update`) the first existing entry whose
`Name` equals the new entry's `Name`, else append the new entry. -/
def mergeOneService : List FieldMap → FieldMap → List FieldMap
  | [], svc => [svc]
  | e :: rest, svc =>
    if nameOf e = nameOf svc then dictUpdate e svc :: rest
    else e :: mergeOneService rest svc

/-- The names of the accumulated service entries, in order. -/
def namesOf (l : List FieldMap) : List (Option S) := l.map nameOf

/-- The first accumulated entry carrying name `o` (the one `mergeOneService`
would update). -/
def entryFor (l : List FieldMap) (o : Option S) : Option FieldMap :=
  l.find? (fun e => decide (nameOf e = o))

@[simp] theorem dictUpdate_nil (e : FieldMap) : dictUpdate e [] = e := rfl

theorem dictUpdate_cons (e : FieldMap) (k v : S) (n : FieldMap) :
    dictUpdate e ((k, v) :: n) = dictUpdate (aupd e k v) n := rfl

theorem dictUpdate_nodup (e n : FieldMap) (h : NodupA e) : NodupA (dictUpdate e n) := by
  induction n generalizing e with
  | nil => exact h
  | cons kv n ih =>
    obtain ⟨k, v⟩ := kv
    rw [dictUpdate_cons]
    exact ih _ (aupd_nodup _ _ _ h)

theorem keysA_dictUpdate_superset (e n : FieldMap) (k : S) (h : k ∈ keysA e) :
    k ∈ keysA (dictUpdate e n) := by
  induction n generalizing e with
  | nil => exact h
  | cons kv n ih =>
    obtain ⟨k0, v0⟩ := kv
    rw [dictUpdate_cons]
    refine ih _ ?_
    rw [aupd_keys]
    by_cases hm : k0 ∈ keysA e
    · rw [if_pos hm]; exact h
    · rw [if_neg hm]; exact List.mem_append_left _ h

theorem keysA_dictUpdate_arg (e n : FieldMap) (k : S) (h : k ∈ keysA n) :
    k ∈ keysA (dictUpdate e n) := by
  induction n generalizing e with
  | nil => exact absurd h (List.not_mem_nil _)
  | cons kv n ih =>
    obtain ⟨k0, v0⟩ := kv
    rw [dictUpdate_cons]
    rcases List.mem_cons.mp h with h | h
    · subst h
      exact keysA_dictUpdate_superset _ _ _ (by
        rw [aupd_keys]
        by_cases hm : k ∈ keysA e
        · rw [if_pos hm]; exact hm
        · rw [if_neg hm]; exact List.mem_append_right _ (List.mem_singleton_self k))
    · exact ih _ h

theorem keysA_dictUpdate_stable (e n : FieldMap) (h : ∀ k ∈ keysA n, k ∈ keysA e) :
    keysA (dictUpdate e n) = keysA e := by
  induction n generalizing e with
  | nil => rfl
  | cons kv n ih =>
    obtain ⟨k0, v0⟩ := kv
    rw [dictUpdate_cons]
    have hk0 : k0 ∈ keysA e := h k0 (List.mem_cons_self _ _)
    have : keysA (aupd e k0 v0) = keysA e := by rw [aupd_keys, if_pos hk0]
    rw [ih _ (fun k hk => this ▸ h k (List.mem_cons_of_mem _ hk)), this]

/-- Lookup through `dict.update`: the new dict's binding wins when present. -/
theorem alookup_dictUpdate (e n : FieldMap) (k : S) (hn : NodupA n) :
    alookup (dictUpdate e n) k
      = match alookup n k with
        | some v => some v
        | none => alookup e k := by
  induction n generalizing e with
  | nil => simp
  | cons kv n ih =>
    obtain ⟨k0, v0⟩ := kv
    have hn' : NodupA n := by
      unfold NodupA at hn ⊢
      exact (List.nodup_cons.mp (keysA_cons .. ▸ hn)).2
    rw [dictUpdate_cons, ih _ hn', alookup_cons]
    by_cases hk : k = k0
    · subst hk
      have : alookup n k = none := by
        apply alookup_eq_none
        exact (List.nodup_cons.mp (keysA_cons .. ▸ hn)).1
      rw [this, if_pos rfl, alookup_aupd_self]
    · rw [if_neg hk]
      rcases hv : alookup n k with _ | v
      · rw [alookup_aupd_other _ _ _ _ hk]
      · rfl

/-- Lookup through a fold of `dict.update`s: the last dict holding the key wins. -/
theorem alookup_dictUpdateFold (e : FieldMap) (l : List FieldMap) (k : S)
    (hl : ∀ n ∈ l, NodupA n) :
    alookup (dictUpdateFold e l) k
      = match lastW k l with
        | some v => some v
        | none => alookup e k := by
  induction l generalizing e with
  | nil => rfl
  | cons n l ih =>
    have h1 : NodupA n := hl n (List.mem_cons_self _ _)
    have h2 : ∀ m ∈ l, NodupA m := fun m hm => hl m (List.mem_cons_of_mem _ hm)
    have hstep : lastW k (n :: l)
        = match lastW k l with
          | some v => some v
          | none => alookup n k := rfl
    show alookup (dictUpdateFold (dictUpdate e n) l) k = _
    rw [ih _ h2, alookup_dictUpdate _ _ _ h1, hstep]
    cases hv : lastW k l with
    | some v => rfl
    | none =>
      cases alookup n k with
      | some v => rfl
      | none => rfl

theorem keysA_dictUpdateFold_superset (e : FieldMap) (l : List FieldMap) (k : S)
    (h : k ∈ keysA e) : k ∈ keysA (dictUpdateFold e l) := by
  induction l generalizing e with
  | nil => exact h
  | cons n l ih => exact ih _ (keysA_dictUpdate_superset _ _ _ h)

theorem keysA_dictUpdateFold_mem (e : FieldMap) (l : List FieldMap) (n : FieldMap)
    (hn : n ∈ l) (k : S) (h : k ∈ keysA n) : k ∈ keysA (dictUpdateFold e l) := by
  induction l generalizing e with
  | nil => exact absurd hn (List.not_mem_nil _)
  | cons m l ih =>
    show k ∈ keysA (dictUpdateFold (dictUpdate e m) l)
    rcases List.mem_cons.mp hn with hm | hm
    · subst hm
      exact keysA_dictUpdateFold_superset _ _ _ (keysA_dictUpdate_arg _ _ _ h)
    · exact ih _ hm

theorem keysA_dictUpdateFold_stable (e : FieldMap) (l : List FieldMap)
    (h : ∀ n ∈ l, ∀ k ∈ keysA n, k ∈ keysA e) :
    keysA (dictUpdateFold e l) = keysA e := by
  induction l generalizing e with
  | nil => rfl
  | cons n l ih =>
    have h1 : keysA (dictUpdate e n) = keysA e :=
      keysA_dictUpdate_stable _ _ (h n (List.mem_cons_self _ _))
    show keysA (dictUpdateFold (dictUpdate e n) l) = keysA e
    rw [ih _ (fun m hm k hk => h1 ▸ h m (List.mem_cons_of_mem _ hm) k hk), h1]

theorem dictUpdateFold_nodup (e : FieldMap) (l : List FieldMap) (h : NodupA e) :
    NodupA (dictUpdateFold e l) := by
  induction l generalizing e with
  | nil => exact h
  | cons n l ih => exact ih _ (dictUpdate_nodup _ _ h)

/-- Extensionality for maps with distinct keys: equal key sequences plus equal
lookups force list equality. -/
theorem alist_ext {α : Type} (m1 m2 : List (S × α)) (hk : keysA m1 = keysA m2)
    (hnd : NodupA m1) (hl : ∀ k, alookup m1 k = alookup m2 k) : m1 = m2 := by
  induction m1 generalizing m2 with
  | nil =>
    cases m2 with
    | nil => rfl
    | cons p m2 => exact absurd hk (by obtain ⟨k, v⟩ := p; simp)
  | cons p m1 ih =>
    obtain ⟨k, v⟩ := p
    cases m2 with
    | nil => exact absurd hk (by simp)
    | cons q m2 =>
      obtain ⟨k2, v2⟩ := q
      rw [keysA_cons, keysA_cons] at hk
      injection hk with hk1 hk2
      subst hk1
      have hv : v = v2 := by
        have := hl k
        rw [alookup_cons, alookup_cons, if_pos rfl, if_pos rfl] at this
        injection this
      subst hv
      unfold NodupA at hnd
      rw [keysA_cons, List.nodup_cons] at hnd
      refine congrArg _ (ih m2 hk2 hnd.2 (fun k' => ?_))
      by_cases hkk : k' = k
      · subst hkk
        rw [alookup_eq_none _ _ hnd.1, alookup_eq_none _ _ (hk2 ▸ hnd.1)]
      · have := hl k'
        rwa [alookup_cons, alookup_cons, if_neg hkk, if_neg hkk] at this

/-- Replaying a whole sequence of `dict.update`s on the dict it already
produced changes nothing. -/
theorem dictUpdateFold_replay (e : FieldMap) (l : List FieldMap)
    (he : NodupA e) (hl : ∀ n ∈ l, NodupA n) :
    dictUpdateFold (dictUpdateFold e l) l = dictUpdateFold e l := by
  apply alist_ext
  · apply keysA_dictUpdateFold_stable
    exact fun n hn k hk => keysA_dictUpdateFold_mem _ _ _ hn _ hk
  · exact dictUpdateFold_nodup _ _ (dictUpdateFold_nodup _ _ he)
  · intro k
    rw [alookup_dictUpdateFold _ _ _ hl, alookup_dictUpdateFold _ _ _ hl]
    cases lastW k l with
    | some v => rfl
    | none => rfl

/-- The parsed services of one page carrying a given `Name`, in page order. -/
def filterByName (L : List FieldMap) (o : Option S) : List FieldMap :=
  L.filter (fun s => decide (nameOf s = o))

/-- The whole merge loop of app.py lines 313-322 for one page's service list. -/
def mergeServices (acc : List FieldMap) (L : List FieldMap) : List FieldMap :=
  L.foldl mergeOneService acc

theorem mergeOneService_cons (e : FieldMap) (rest : List FieldMap) (svc : FieldMap) :
    mergeOneService (e :: rest) svc
      = if nameOf e = nameOf svc then dictUpdate e svc :: rest
        else e :: mergeOneService rest svc := rfl

theorem nameOf_dictUpdate (e s : FieldMap) (hs : NodupA s)
    (h : nameOf e = nameOf s) : nameOf (dictUpdate e s) = nameOf e := by
  unfold nameOf at *
  rw [alookup_dictUpdate _ _ _ hs]
  cases hv : alookup s "Name".data with
  | some v => rw [h, hv]
  | none => rfl

theorem entryFor_cons (e : FieldMap) (l : List FieldMap) (o : Option S) :
    entryFor (e :: l) o = if nameOf e = o then some e else entryFor l o := by
  unfold entryFor
  rw [List.find?_cons]
  by_cases h : nameOf e = o <;> simp [h]

theorem entryFor_eq_none (l : List FieldMap) (o : Option S) (h : o ∉ namesOf l) :
    entryFor l o = none := by
  induction l with
  | nil => rfl
  | cons e l ih =>
    unfold namesOf at h
    rw [List.map_cons, List.mem_cons, not_or] at h
    rw [entryFor_cons, if_neg (fun hc => h.1 hc.symm)]
    exact ih h.2

theorem namesOf_mergeOneService (m : List FieldMap) (s : FieldMap) (hs : NodupA s) :
    namesOf (mergeOneService m s)
      = if nameOf s ∈ namesOf m then namesOf m else namesOf m ++ [nameOf s] := by
  induction m with
  | nil => simp [mergeOneService, namesOf]
  | cons e rest ih =>
    rw [mergeOneService_cons]
    by_cases he : nameOf e = nameOf s
    · rw [if_pos he]
      unfold namesOf
      rw [List.map_cons, List.map_cons, nameOf_dictUpdate _ _ hs he,
        if_pos (by rw [← he]; exact List.mem_cons_self _ _)]
    · rw [if_neg he]
      unfold namesOf at ih ⊢
      rw [List.map_cons, List.map_cons, ih]
      by_cases hm : nameOf s ∈ List.map nameOf rest
      · rw [if_pos hm, if_pos (List.mem_cons_of_mem _ hm)]
      · rw [if_neg hm, if_neg (by
          rw [List.mem_cons, not_or]
          exact ⟨fun hc => he hc.symm, hm⟩), List.cons_append]

theorem entryFor_mergeOneService (m : List FieldMap) (s : FieldMap) (o : Option S)
    (hs : NodupA s) :
    entryFor (mergeOneService m s) o
      = if o = nameOf s then
          (match entryFor m o with
           | some e => some (dictUpdate e s)
           | none => some s)
        else entryFor m o := by
  induction m with
  | nil =>
    show entryFor [s] o = _
    rw [entryFor_cons]
    by_cases ho : o = nameOf s
    · rw [if_pos ho, if_pos ho.symm]
      rfl
    · rw [if_neg ho, if_neg (fun hc => ho hc.symm)]
  | cons e rest ih =>
    rw [mergeOneService_cons]
    by_cases he : nameOf e = nameOf s
    · rw [if_pos he, entryFor_cons, nameOf_dictUpdate _ _ hs he, entryFor_cons]
      by_cases ho : nameOf e = o
      · have ho2 : o = nameOf s := by rw [← ho, he]
        rw [if_pos ho, if_pos ho2, if_pos ho]
      · have ho2 : ¬ o = nameOf s := by
          intro hc
          exact ho (by rw [he, ← hc])
        rw [if_neg ho2, if_neg ho, if_neg ho]
    · rw [if_neg he, entryFor_cons, entryFor_cons]
      by_cases ho : nameOf e = o
      · have ho2 : ¬ o = nameOf s := by
          intro hc
          exact he (by rw [ho, hc])
        rw [if_pos ho, if_neg ho2, if_pos ho]
      · rw [if_neg ho, ih, if_neg ho]

theorem entryFor_mergeServices (m : List FieldMap) (L : List FieldMap) (o : Option S)
    (hL : ∀ s ∈ L, NodupA s) :
    entryFor (mergeServices m L) o
      = match entryFor m o, filterByName L o with
        | some e, Lo => some (dictUpdateFold e Lo)
        | none, [] => none
        | none, s0 :: rest => some (dictUpdateFold s0 rest) := by
  induction L generalizing m with
  | nil =>
    show entryFor m o = _
    cases entryFor m o with
    | some e => rfl
    | none => rfl
  | cons s L ih =>
    have hs : NodupA s := hL s (List.mem_cons_self _ _)
    have hL' : ∀ t ∈ L, NodupA t := fun t ht => hL t (List.mem_cons_of_mem _ ht)
    show entryFor (mergeServices (mergeOneService m s) L) o = _
    rw [ih _ hL', entryFor_mergeOneService _ _ _ hs]
    have hfil : filterByName (s :: L) o
        = if decide (nameOf s = o) then s :: filterByName L o else filterByName L o := by
      unfold filterByName
      rw [List.filter_cons]
    by_cases ho : o = nameOf s
    · rw [if_pos ho, hfil, if_pos (by rw [ho]; exact decide_eq_true rfl)]
      cases hm : entryFor m o with
      | some e => rfl
      | none => rfl
    · rw [if_neg ho, hfil, if_neg (by
        intro hc
        exact ho (of_decide_eq_true hc).symm)]

theorem namesOf_mergeOneService_mono (m : List FieldMap) (s : FieldMap) (o : Option S)
    (hs : NodupA s) (h : o ∈ namesOf m) : o ∈ namesOf (mergeOneService m s) := by
  rw [namesOf_mergeOneService _ _ hs]
  by_cases hm : nameOf s ∈ namesOf m
  · rw [if_pos hm]; exact h
  · rw [if_neg hm]; exact List.mem_append_left _ h

theorem namesOf_mergeOneService_self (m : List FieldMap) (s : FieldMap)
    (hs : NodupA s) : nameOf s ∈ namesOf (mergeOneService m s) := by
  rw [namesOf_mergeOneService _ _ hs]
  by_cases hm : nameOf s ∈ namesOf m
  · rw [if_pos hm]; exact hm
  · rw [if_neg hm]; exact List.mem_append_right _ (List.mem_singleton_self _)

theorem namesOf_mergeServices_mono (m : List FieldMap) (L : List FieldMap) (o : Option S)
    (hL : ∀ s ∈ L, NodupA s) (h : o ∈ namesOf m) : o ∈ namesOf (mergeServices m L) := by
  induction L generalizing m with
  | nil => exact h
  | cons s L ih =>
    exact ih _ (fun t ht => hL t (List.mem_cons_of_mem _ ht))
      (namesOf_mergeOneService_mono _ _ _ (hL s (List.mem_cons_self _ _)) h)

theorem namesOf_mergeServices_covers (m : List FieldMap) (L : List FieldMap)
    (hL : ∀ s ∈ L, NodupA s) (s : FieldMap) (hsL : s ∈ L) :
    nameOf s ∈ namesOf (mergeServices m L) := by
  induction L generalizing m with
  | nil => exact absurd hsL (List.not_mem_nil _)
  | cons t L ih =>
    have hL' : ∀ u ∈ L, NodupA u := fun u hu => hL u (List.mem_cons_of_mem _ hu)
    show nameOf s ∈ namesOf (mergeServices (mergeOneService m t) L)
    rcases List.mem_cons.mp hsL with hst | hst
    · subst hst
      exact namesOf_mergeServices_mono _ _ _ hL'
        (namesOf_mergeOneService_self _ _ (hL s (List.mem_cons_self _ _)))
    · exact ih _ hL' hst

theorem namesOf_mergeServices_stable (m : List FieldMap) (L : List FieldMap)
    (hL : ∀ s ∈ L, NodupA s) (h : ∀ s ∈ L, nameOf s ∈ namesOf m) :
    namesOf (mergeServices m L) = namesOf m := by
  induction L generalizing m with
  | nil => rfl
  | cons s L ih =>
    have hs : NodupA s := hL s (List.mem_cons_self _ _)
    have h1 : namesOf (mergeOneService m s) = namesOf m := by
      rw [namesOf_mergeOneService _ _ hs, if_pos (h s (List.mem_cons_self _ _))]
    show namesOf (mergeServices (mergeOneService m s) L) = namesOf m
    rw [ih _ (fun t ht => hL t (List.mem_cons_of_mem _ ht))
      (fun t ht => h1 ▸ h t (List.mem_cons_of_mem _ ht)), h1]

theorem namesOf_mergeOneService_nodup (m : List FieldMap) (s : FieldMap)
    (hs : NodupA s) (h : (namesOf m).Nodup) : (namesOf (mergeOneService m s)).Nodup := by
  rw [namesOf_mergeOneService _ _ hs]
  by_cases hm : nameOf s ∈ namesOf m
  · rw [if_pos hm]; exact h
  · rw [if_neg hm]
    exact List.Nodup.append h (List.nodup_singleton _)
      (by simpa [List.disjoint_singleton] using hm)

theorem namesOf_mergeServices_nodup (m : List FieldMap) (L : List FieldMap)
    (hL : ∀ s ∈ L, NodupA s) (h : (namesOf m).Nodup) :
    (namesOf (mergeServices m L)).Nodup := by
  induction L generalizing m with
  | nil => exact h
  | cons s L ih =>
    exact ih _ (fun t ht => hL t (List.mem_cons_of_mem _ ht))
      (namesOf_mergeOneService_nodup _ _ (hL s (List.mem_cons_self _ _)) h)

/-- Extensionality for service lists: equal name sequences (without repeats)
plus equal `entryFor` views force equality. -/
theorem services_ext (l1 l2 : List FieldMap) (hn : namesOf l1 = namesOf l2)
    (hd : (namesOf l1).Nodup) (he : ∀ o, entryFor l1 o = entryFor l2 o) : l1 = l2 := by
  induction l1 generalizing l2 with
  | nil =>
    cases l2 with
    | nil => rfl
    | cons e l2 => exact absurd hn (by simp [namesOf])
  | cons e1 r1 ih =>
    cases l2 with
    | nil => exact absurd hn (by simp [namesOf])
    | cons e2 r2 =>
      unfold namesOf at hn
      rw [List.map_cons, List.map_cons] at hn
      injection hn with hn1 hn2
      unfold namesOf at hd
      rw [List.map_cons, List.nodup_cons] at hd
      have hee : e1 = e2 := by
        have h1 := he (nameOf e1)
        rw [entryFor_cons, entryFor_cons, if_pos rfl, if_pos hn1.symm] at h1
        injection h1
      subst hee
      have hd2 : nameOf e1 ∉ namesOf r2 := by
        unfold namesOf
        rw [← hn2]
        exact hd.1
      refine congrArg _ (ih r2 hn2 hd.2 (fun o => ?_))
      by_cases ho : o = nameOf e1
      · subst ho
        rw [entryFor_eq_none _ _ hd.1, entryFor_eq_none _ _ hd2]
      · have h1 := he o
        rwa [entryFor_cons, entryFor_cons, if_neg (fun hc => ho hc.symm),
          if_neg (fun hc => ho hc.symm)] at h1

theorem aupd_append_fresh {α : Type} (m : List (S × α)) (k : S) (v : α)
    (h : k ∉ keysA m) : aupd m k v = m ++ [(k, v)] := by
  induction m with
  | nil => rfl
  | cons p rest ih =>
    obtain ⟨k0, v0⟩ := p
    rw [keysA_cons, List.mem_cons, not_or] at h
    rw [aupd_cons, if_neg h.1, ih h.2, List.cons_append]

/-- `dict({}).update(s)` rebuilds `s` itself when `s` has no repeated keys. -/
theorem dictUpdate_nil_left (s : FieldMap) (hs : NodupA s) : dictUpdate [] s = s := by
  have main : ∀ (n e : FieldMap), NodupA n → (∀ k ∈ keysA n, k ∉ keysA e) →
      dictUpdate e n = e ++ n := by
    intro n
    induction n with
    | nil => intro e _ _; rw [dictUpdate_nil, List.append_nil]
    | cons kv n ih =>
      intro e hnd hfresh
      obtain ⟨k, v⟩ := kv
      unfold NodupA at hnd
      rw [keysA_cons, List.nodup_cons] at hnd
      rw [dictUpdate_cons, aupd_append_fresh _ _ _ (hfresh k (List.mem_cons_self _ _)),
        ih _ hnd.2 (fun k' hk' => ?_), List.append_assoc, List.singleton_append]
      rw [keysA, List.map_append]
      rw [List.mem_append, not_or]
      refine ⟨hfresh k' (List.mem_cons_of_mem _ hk'), ?_⟩
      intro hc
      rw [show List.map Prod.fst [(k, v)] = [k] from rfl, List.mem_singleton] at hc
      exact hnd.1 (hc ▸ hk')
  have := main s [] hs (by intro k _; exact List.not_mem_nil k)
  rwa [List.nil_append] at this

/-- Re-running the service-merge loop of `_update_found_info` on the list it
already produced changes nothing. -/
theorem mergeServices_replay (L : List FieldMap) (hL : ∀ s ∈ L, NodupA s) :
    mergeServices (mergeServices [] L) L = mergeServices [] L := by
  have hm1names : ∀ s ∈ L, nameOf s ∈ namesOf (mergeServices [] L) :=
    fun s hs => namesOf_mergeServices_covers _ _ hL s hs
  apply services_ext
  · exact namesOf_mergeServices_stable _ _ hL hm1names
  · exact namesOf_mergeServices_nodup _ _ hL
      (namesOf_mergeServices_nodup _ _ hL List.nodup_nil)
  · intro o
    rw [entryFor_mergeServices _ _ _ hL, entryFor_mergeServices _ _ _ hL]
    have hnilN : entryFor ([] : List FieldMap) o = none := rfl
    rw [hnilN]
    cases hf : filterByName L o with
    | nil => rfl
    | cons s0 rest =>
      have hsub : ∀ t ∈ filterByName L o, NodupA t := by
        intro t ht
        exact hL t (List.mem_of_mem_filter ht)
      have hs0 : NodupA s0 := hsub s0 (hf ▸ List.mem_cons_self _ _)
      have hrest : ∀ t ∈ rest, NodupA t :=
        fun t ht => hsub t (hf ▸ List.mem_cons_of_mem _ ht)
      have hone : dictUpdateFold s0 rest = dictUpdateFold [] (s0 :: rest) := by
        show _ = dictUpdateFold (dictUpdate [] s0) rest
        rw [dictUpdate_nil_left _ hs0]
      show some (dictUpdateFold (dictUpdateFold s0 rest) (s0 :: rest))
          = some (dictUpdateFold s0 rest)
      rw [hone, dictUpdateFold_replay _ _ nodupA_nil (by
        intro n hn
        rcases List.mem_cons.mp hn with h | h
        · exact h ▸ hs0
        · exact hrest n h)]

/-! ### The record accumulator (src/app.py `_update_found_info`, lines 248-328) -/

/-- The sentinel "missing" markers of app.py lines 284-285 and 297-298,
compared against the lower-cased value. -/
def sentinels : List S :=
  ["(missing)".data, "(not mentioned)".data, "not specified".data, "not available".data]

/-- `value.lower() in ['(missing)', '(not mentioned)', 'not specified', 'not available']`. -/
def isSentinel (v : S) : Bool := decide (pyLower v ∈ sentinels)

/-- `self.found_info` / the local `temp_info`: one CPython dict keyed by section
name.  The `'Services'` key holds a list of per-service dicts while every other
key holds a field dict, so the model splits the dict into its field-map part
(`sectionsF`, insertion-ordered, holding `Agency Level` / `Site Level` /
`Custom`) and the optional `Services` list (`none` when the key is absent).
Merging a section only touches its own key, so the relative interleaving of
`'Services'` with the other keys during `temp_info.items()` iteration is not
observable and the split is faithful. -/
structure InfoDict where
  sectionsF : List (S × FieldMap)
  services : Option (List FieldMap)
deriving DecidableEq, Repr

/-- A fresh accumulator: `self.found_info = {}` (and `temp_info = {}`). -/
def emptyInfo : InfoDict := ⟨[], none⟩

/-- Parser state of the loop in `_update_found_info`: `current_section` plus
`temp_info`.  `current_service` is not stored separately: it is `None` until a
`"- Name:"` line appends a fresh dict, and from then on it is always the last
entry of `temp_info['Services']` (entries are only ever appended there), so the
model addresses it as the last element of the services list. -/
structure ParseSt where
  csection : Option S
  temp : InfoDict
deriving DecidableEq, Repr

/-- Lines 265-272: scan the fixed header markers in dict order and take the
first whose text occurs in the upper-cased line. -/
def headerFor (upper : S) : Option S :=
  if pyIn "AGENCY LEVEL".data upper then some "Agency Level".data
  else if pyIn "SITE LEVEL".data upper then some "Site Level".data
  else if pyIn "SERVICE/PROGRAM".data upper then some "Services".data
  else none

/-- Lines 270-271: `if current_section not in temp_info: temp_info[current_section]
= {} if current_section != 'Services' else []` (a new dict key is appended at
the end). -/
def initSection (t : InfoDict) (sec : S) : InfoDict :=
  if sec = "Services".data then
    match t.services with
    | none => { t with services := some [] }
    | some _ => t
  else
    match alookup t.sectionsF sec with
    | none => { t with sectionsF := t.sectionsF ++ [(sec, [])] }
    | some _ => t

/-- Lines 276-279: the page's service list after the `"- Name:"` check — a
fresh empty entry is appended on a `"- Name:"` line (`current_service` is that
last entry). -/
def svcs1Of (t : InfoDict) (line : S) : List FieldMap :=
  if pyStartsWith "- Name:".data line then t.services.getD [] ++ [[]]
  else t.services.getD []

/-- Lines 275-286, the `current_section == 'Services'` branch.  `none` models
the `ValueError` raised by `line[2:].split(':', 1)` unpacking when a `"- "`
line carries no colon while a service entry is open. -/
def servicesLine (t : InfoDict) (line : S) : Option InfoDict :=
  if pyStartsWith "- ".data line ∧ svcs1Of t line ≠ [] then
    match findSplit ":".data (line.drop 2) with
    | none => none
    | some (k0, v0) =>
      if pyStrip v0 ≠ [] ∧ isSentinel (pyStrip v0) = false then
        some { t with services := some ((svcs1Of t line).dropLast
          ++ [aupd ((svcs1Of t line).getLast?.getD []) (pyStrip k0) (pyStrip v0)]) }
      else some { t with services := some (svcs1Of t line) }
  else some { t with services := some (svcs1Of t line) }

/-- Lines 289-304, the non-Services branch (guarded by `':' in line` and not
starting with `http`): split at the first colon, strip, filter keys starting
with `Field` and empty or sentinel values; keep the whole value for `hour`
keys whose value contains a colon, else truncate the value at its first colon. -/
def fieldsLine (t : InfoDict) (sec : S) (line : S) : InfoDict :=
  match findSplit ":".data line with
  | none => t
  | some (k0, v0) =>
    if ¬ pyStartsWith "Field".data (pyStrip k0) ∧ pyStrip v0 ≠ []
        ∧ isSentinel (pyStrip v0) = false then
      { t with sectionsF := (aupd t.sectionsF sec
          (aupd ((alookup t.sectionsF sec).getD []) (pyStrip k0)
            (if pyIn "hour".data (pyLower (pyStrip k0)) ∧ pyIn ":".data (pyStrip v0)
             then pyStrip v0 else beforeFirst ":".data (pyStrip v0)))) }
    else t

/-- The body of one loop iteration after the header scan: dispatch the line to
the Services branch (lines 275-286) or the generic `key: value` branch
(lines 289-304). -/
def parseDispatch (ps1 : ParseSt) (line : S) : Option ParseSt :=
  if ps1.csection = some "Services".data then
    match servicesLine ps1.temp line with
    | none => none
    | some t => some { ps1 with temp := t }
  else if pyIn ":".data line ∧ ¬ pyStartsWith "http".data line then
    match ps1.csection with
    | some sec => some { ps1 with temp := fieldsLine ps1.temp sec line }
    | none => some ps1
  else some ps1

/-- One iteration of the `for line in new_info.split('\n')` loop
(lines 260-304). -/
def parseLine (ps : ParseSt) (line0 : S) : Option ParseSt :=
  let line := pyStrip line0
  if line = [] then some ps
  else
    match headerFor (pyUpper line) with
    | some h => parseDispatch (ParseSt.mk (some h) (initSection ps.temp h)) line
    | none => parseDispatch ps line

/-- The whole parse phase of `_update_found_info`: fold the line loop over
`new_info.split('\n')`; `none` when the loop raises. -/
def parseNewInfo (text : S) : Option InfoDict :=
  ((pySplit "\n".data text).foldl (fun acc l => acc.bind (fun ps => parseLine ps l))
      (some (ParseSt.mk none emptyInfo))).map (fun ps => ps.temp)

/-- Lines 325-328: keep the longer string per field (ties keep the existing
value). -/
def keepLonger (cur : FieldMap) (kv : S × S) : FieldMap :=
  match alookup cur kv.1 with
  | none => aupd cur kv.1 kv.2
  | some old => if kv.2.length > old.length then aupd cur kv.1 kv.2 else cur

/-- Merging one parsed non-service section into the accumulated one. -/
def mergeFields (cur data : FieldMap) : FieldMap := data.foldl keepLonger cur

/-- Lines 306-328: merge `temp_info` into `self.found_info` (initializing
absent sections, deduplicating services by `Name`, keeping longer values in
the other sections). -/
def mergeSectionStep (acc : InfoDict) (sd : S × FieldMap) : InfoDict :=
  { acc with sectionsF := aupd acc.sectionsF sd.1 (mergeFields ((alookup acc.sectionsF sd.1).getD []) sd.2) }

def mergeTemp (found : InfoDict) (temp : InfoDict) : InfoDict :=
  let f1 := temp.sectionsF.foldl mergeSectionStep found
  match temp.services with
  | none => f1
  | some svcs => { f1 with services := some (mergeServices (f1.services.getD []) svcs) }

/-- `_update_found_info(new_info)` as a function of the accumulator: parse the
page's `NEW_INFO` text and merge it; `none` models the `ValueError` escaping
(in which case `self.found_info` is untouched, the parse loop runs before any
merge). -/
def updateFoundInfo (found : InfoDict) (newInfo : S) : Option InfoDict :=
  (parseNewInfo newInfo).map (mergeTemp found)

/-- The observable effect of a `_update_found_info` call on `self.found_info`:
on a parse error the exception is caught by `analyze_website`, leaving the
accumulator as it was. -/
def applyMerge (found : InfoDict) (newInfo : S) : InfoDict :=
  (updateFoundInfo found newInfo).getD found

example : applyMerge emptyInfo "AGENCY LEVEL:\n- Agency Name: Acme\n".data
    = ⟨[("Agency Level".data, [("- Agency Name".data, "Acme".data)])], none⟩ := by decide

example : applyMerge emptyInfo "SERVICE/PROGRAM LEVEL:\n- Name: Food Bank\n- Phone Numbers: 555-1111".data
    = ⟨[], some [[("Name".data, "Food Bank".data), ("Phone Numbers".data, "555-1111".data)]]⟩ := by
  decide

example :
    applyMerge (applyMerge emptyInfo
        "SERVICE/PROGRAM LEVEL:\n- Name: Food Bank\n- Phone Numbers: 555-1111".data)
        "SERVICE/PROGRAM LEVEL:\n- Name: Food Bank\n- Description: Provides groceries".data
      = ⟨[], some [[("Name".data, "Food Bank".data), ("Phone Numbers".data, "555-1111".data),
          ("Description".data, "Provides groceries".data)]]⟩ := by decide

example : applyMerge emptyInfo "AGENCY LEVEL:\n- Eligibility: not specified: see below".data
    = ⟨[("Agency Level".data, [("- Eligibility".data, "not specified".data)])], none⟩ := by
  decide

/-! ### Custom-mode extraction (src/app.py lines 429-434) -/

/-- The slice `analysis.split("EXTRACTED_INFO:")[1].split("NEXT_URL:")[0].strip()`
of line 431. -/
def extractedSlice (analysis : S) : S :=
  pyStrip (beforeFirst "NEXT_URL:".data (secondPart "EXTRACTED_INFO:".data analysis))

/-- Modelled from the spec: `self._parse_custom_info(extracted)` is invoked at
src/app.py line 434 but `_parse_custom_info` is defined nowhere in the
repository.  Per spec section 4.3, the slice is "parsed into flat key/value
pairs (same colon-split heuristic, no section concept)": each line containing
a colon (and not starting with `http`) is split at its first colon, key and
value are trimmed, and empty or sentinel values are dropped. -/
def parseCustomInfo (text : S) : FieldMap :=
  (pySplit "\n".data text).foldl
    (fun acc line0 =>
      let line := pyStrip line0
      if pyIn ":".data line ∧ ¬ pyStartsWith "http".data line then
        match findSplit ":".data line with
        | none => acc
        | some (k0, v0) =>
          let k := pyStrip k0
          let v := pyStrip v0
          if v ≠ [] ∧ isSentinel v = false then aupd acc k v else acc
      else acc)
    []

/-- Lines 429-434: in custom mode, when the `EXTRACTED_INFO:` marker is
present, initialize `found_info['Custom']` if needed and `dict.update` it with
the parsed pairs (last write wins per key). -/
def customUpdate (found : InfoDict) (analysis : S) : InfoDict :=
  if pyIn "EXTRACTED_INFO:".data analysis then
    let parsed := parseCustomInfo (extractedSlice analysis)
    let cur := (alookup found.sectionsF "Custom".data).getD []
    { found with sectionsF := aupd found.sectionsF "Custom".data (dictUpdate cur parsed) }
  else found

example :
    customUpdate ⟨[("Custom".data, [("k".data, "abc".data)])], none⟩
        "EXTRACTED_INFO:\nk: z\nNEXT_URL:\nnone".data
      = ⟨[("Custom".data, [("k".data, "z".data)])], none⟩ := by decide

/-! ### URL cleaning and normalization (src/app.py lines 118-134) -/

/-- `_clean_url` (lines 118-126): strip surrounding quotes; when a scheme
separator is present, collapse doubled slashes in the part after the first
`://` only. -/
def cleanUrl (url0 : S) : S :=
  match findSplit "://".data (pyStripChars ['\'', '"'] url0) with
  | none => pyStripChars ['\'', '"'] url0
  | some (protocol, rest) => protocol ++ "://".data ++ pyReplace "//".data "/".data rest

/-- The result of Python `urllib.parse.urlparse` restricted to the components
this program reads (`scheme`, `netloc`, `path`).  Modelled from the stdlib for
the URL shapes that reach it: an optional `scheme:` head (letter first, then
letters/digits/`+`/`-`/`.`; the scheme is lower-cased), a `//netloc` running to
the next `/`, `?` or `#`, and a path running to the first `?` or `#`. -/
structure UrlParts where
  scheme : S
  netloc : S
  path : S
deriving DecidableEq, Repr

def schemeChar (c : Char) : Bool :=
  c.isAlpha || c.isDigit || c = '+' || c = '-' || c = '.'

def pyUrlparse (u : S) : UrlParts :=
  let split :=
    match findSplit ":".data u with
    | none => ([], u)
    | some (pre, post) =>
      if pre ≠ [] ∧ (pre.all schemeChar) ∧ (pre.headD ' ').isAlpha then (pyLower pre, post)
      else ([], u)
  let scheme := split.1
  let rest := split.2
  let netSplit :=
    if pyStartsWith "//".data rest then
      let body := rest.drop 2
      (body.takeWhile (fun c => ¬ (c = '/' ∨ c = '?' ∨ c = '#')),
       body.dropWhile (fun c => ¬ (c = '/' ∨ c = '?' ∨ c = '#')))
    else ([], rest)
  let path := (netSplit.2.takeWhile (fun c => ¬ (c = '?' ∨ c = '#')))
  UrlParts.mk scheme netSplit.1 path

/-- `_normalize_url` (lines 128-134): clean, reparse, rebuild
`scheme://netloc path`, drop trailing slashes and lower-case. -/
def normalizeUrl (url : S) : S :=
  let parsed := pyUrlparse (cleanUrl url)
  pyLower (pyRStrip ['/'] (parsed.scheme ++ "://".data ++ parsed.netloc ++ parsed.path))

example : normalizeUrl "HTTP://Example.com//a//b/".data = "http://example.com/a/b".data := by
  decide

/-- Python `urllib.parse.urljoin`, modelled from the stdlib for the reference
shapes this program produces (an absolute base of the form `scheme://host`,
joined with an absolute-path, relative-path or empty reference; an absolute
reference is returned as is).  Dot-segment removal is omitted: no caller
builds dotted references. -/
def pyUrljoin (base rel : S) : S :=
  if rel = [] then base
  else
    let bp := pyUrlparse base
    let rp := pyUrlparse rel
    if rp.scheme ≠ [] ∧ (rp.scheme ≠ bp.scheme ∨ rel.drop (rp.scheme.length + 1) ≠ []) then
      if rp.scheme = bp.scheme ∧ pyStartsWith "//".data (rel.drop (rp.scheme.length + 1)) then rel
      else if rp.scheme ≠ bp.scheme then rel
      else
        bp.scheme ++ "://".data ++ bp.netloc ++
          (if pyStartsWith "/".data (rel.drop (rp.scheme.length + 1))
           then rel.drop (rp.scheme.length + 1)
           else "/".data ++ rel.drop (rp.scheme.length + 1))
    else if pyStartsWith "//".data rel then bp.scheme ++ ":".data ++ rel
    else if pyStartsWith "/".data rel then bp.scheme ++ "://".data ++ bp.netloc ++ rel
    else
      let merged :=
        if bp.netloc ≠ [] ∧ bp.path = [] then "/".data ++ rel
        else (bp.path.reverse.dropWhile (fun c => c ≠ '/')).reverse ++ rel
      bp.scheme ++ "://".data ++ bp.netloc ++ merged

example : pyUrljoin "http://h".data "/about".data = "http://h/about".data := by decide
example : pyUrljoin "http://h".data "page/x".data = "http://h/page/x".data := by decide
example : pyUrljoin "http://h".data [] = "http://h".data := by decide

/-! ### The crawl controller (src/app.py `WebsiteAnalyzer`) -/

/-- The dict returned by `WebScraper.scrape_website` (src/scraper.py line 42):
`title`, `url` and the same-domain `internal_links` of the page. -/
structure ScrapedMeta where
  title : S
  url : S
  internal_links : List S
deriving DecidableEq, Repr

structure ScrapedData where
  content : S
  metadata : ScrapedMeta
deriving DecidableEq, Repr

/-- The data `_analyze_content` interpolates into the prompt it sends to the
language model (both templates draw on a subset of these fields; the literal
prompt text around them is fixed).  The model is an external collaborator, so
it is abstracted as an arbitrary function of these inputs. -/
structure OracleInput where
  url : S
  content : S
  found_info : InfoDict
  missing_info : List S
  links : List S
  custom_query : Option S
deriving DecidableEq, Repr

/-- `self.llm.invoke(analysis_prompt)` — the external completion oracle. -/
abbrev Oracle := OracleInput → S

/-- `self.scraper.scrape_website(url)` — the external fetcher; `.error` models
any exception raised by the request or parse. -/
abbrev Fetcher := S → Except S ScrapedData

/-- The mutable state of one `WebsiteAnalyzer` (lines 108-116).  The Python
sets are modelled as duplicate-free lists in insertion order; CPython iterates
sets in hash order instead, which matters only where a set is joined or
indexed (`_format_final_results` line 366, `_normalize_and_validate_url` line
214) and is flagged there. -/
structure St where
  visited : List S
  failed : List S
  base_url : Option S
  found_info : InfoDict
  missing_info : List S
  all_internal_links : List S
deriving DecidableEq, Repr

def emptySt : St := ⟨[], [], none, emptyInfo, [], []⟩

/-- `set.add`: membership-preserving insert (position: CPython keeps no
insertion order; the model appends). -/
def insertSet (l : List S) (x : S) : List S := if x ∈ l then l else l ++ [x]

/-- `set.update` with an iterable of links. -/
def unionSet (l : List S) (xs : List S) : List S := xs.foldl insertSet l

/-- The `metadata` field of the dict `analyze_website` returns: a page's
scraped metadata on success, `{'url':..,'status':'skipped'}`, or
`{'url':.., 'error': str(e)}`. -/
inductive RMeta where
  | skipped (url : S)
  | fetchError (url : S) (err : S)
  | page (m : ScrapedMeta)
deriving DecidableEq, Repr

structure AResult where
  analysis : S
  metadata : RMeta
deriving DecidableEq, Repr

/-- The canonical field order used when rendering one service
(lines 347-352). -/
def serviceKeysOrder : List S :=
  List.map String.data
    ["Name", "AKA Names", "Phone Numbers", "Description", "Days/Hours of Operation",
     "Eligibility", "Geographic Area Served", "Documents Required",
     "Application/Intake Process", "Fees/Payment Options",
     "Taxonomy Terms (Services/Targets)"]

def natToS (n : Nat) : S := (toString n).data

def formatService (idx : Nat) (svc : FieldMap) : List S :=
  ("Service ".data ++ natToS idx ++ ":".data)
    :: (serviceKeysOrder.filterMap (fun key =>
          match alookup svc key with
          | some v => some ("  ".data ++ key ++ ": ".data ++ v)
          | none => none))
    ++ [[]]

def formatServicesGo : Nat → List FieldMap → List S
  | _, [] => []
  | i, svc :: rest => formatService i svc ++ formatServicesGo (i + 1) rest

/-- `_format_final_results` (lines 330-368).  The source-URL line joins
`self.visited_urls`, a CPython set, so its real order is hash-dependent; the
model joins in insertion (traversal) order — see the C8 discussion. -/
def formatFinalResults (st : St) : S :=
  let out0 : List S := ["Complete Service Provider Profile:\n".data]
  let out1 := ["Agency Level".data, "Site Level".data].foldl
    (fun out sec =>
      match alookup st.found_info.sectionsF sec with
      | none => out
      | some m =>
        out ++ (("=== ".data ++ sec ++ " ===\n".data)
          :: m.map (fun kv => kv.1 ++ ": ".data ++ kv.2)) ++ [[]])
    out0
  let out2 :=
    match st.found_info.services with
    | some svcs =>
      if svcs ≠ [] then out1 ++ ["=== Services/Programs ===\n".data] ++ formatServicesGo 1 svcs
      else out1
    | none => out1
  let missingItems := (st.missing_info.filter (fun item => ¬ pyIn ":".data item)).map pyStrip
  let out3 := out2 ++ ["=== MISSING INFORMATION ===".data,
    (if missingItems ≠ [] then List.intercalate ", ".data missingItems
     else "All mandatory information found".data), []]
  let out4 := out3 ++ ["=== SOURCE URLS ===".data, List.intercalate ", ".data st.visited]
  List.intercalate "\n".data out4

/-- `_format_custom_results` (lines 446-460); same source-URL caveat. -/
def formatCustomResults (st : St) (customQuery : S) : S :=
  let out0 : List S := ["Query Results for: ".data ++ customQuery ++ "\n".data]
  let out1 :=
    match alookup st.found_info.sectionsF "Custom".data with
    | none => out0
    | some m =>
      out0 ++ ("=== EXTRACTED INFORMATION ===\n".data
        :: m.map (fun kv => kv.1 ++ ": ".data ++ kv.2)) ++ [[]]
  let out2 := out1 ++ ["=== SOURCE URLS ===".data, List.intercalate ", ".data st.visited]
  List.intercalate "\n".data out2

/-- `analysis.split("NEW_INFO:")[1].split("STILL_MISSING:")[0].strip()`. -/
def newInfoSlice (analysis : S) : S :=
  pyStrip (beforeFirst "STILL_MISSING:".data (secondPart "NEW_INFO:".data analysis))

/-- `analysis.split("STILL_MISSING:")[1].split("NEXT_URL:")[0].strip()`. -/
def missingSlice (analysis : S) : S :=
  pyStrip (beforeFirst "NEXT_URL:".data (secondPart "STILL_MISSING:".data analysis))

/-- Line 442: `set(item.strip() for item in missing_info.split('\n') if
item.strip())`, modelled as a first-occurrence-deduplicated list. -/
def missingSetOf (slice : S) : List S :=
  ((pySplit "\n".data slice).filterMap (fun item =>
      let it := pyStrip item
      if it ≠ [] then some it else none)).foldl insertSet []

/-- `_analyze_content` (lines 370-444) after the oracle call: apply the
response to the accumulator and return the raw analysis text.  `none` models
the `ValueError` escaping `_update_found_info`.  In the custom branch the real
repository would raise `AttributeError` on every response containing
`EXTRACTED_INFO:` because `_parse_custom_info` is undefined; the model uses
the spec-modelled `parseCustomInfo` instead (see its doc comment). -/
def analyzeContent (llm : Oracle) (st : St) (sd : ScrapedData) (custom : Option S) :
    Option (S × St) :=
  let analysis := llm (OracleInput.mk sd.metadata.url sd.content st.found_info
    st.missing_info sd.metadata.internal_links custom)
  match custom with
  | some _ =>
    some (analysis, { st with found_info := customUpdate st.found_info analysis })
  | none =>
    let st1res :=
      if pyIn "NEW_INFO:".data analysis then
        match updateFoundInfo st.found_info (newInfoSlice analysis) with
        | none => none
        | some f => some { st with found_info := f }
      else some st
    match st1res with
    | none => none
    | some st1 =>
      let st2 :=
        if pyIn "STILL_MISSING:".data analysis then
          { st1 with missing_info := missingSetOf (missingSlice analysis) }
        else st1
      some (analysis, st2)

/-- Lines 187-189: the raw next-URL value — the text after the `NEXT_URL:`
marker up to the next newline, with trailing parenthesized commentary cut off
and whitespace stripped; `none` when the marker is absent (in which case the
`split(...)[1]` of line 187 raises `IndexError`). -/
def nextUrlRaw (analysis : S) : Option S :=
  match pySplit "NEXT_URL:".data analysis with
  | _ :: seg :: _ =>
    some (pyStrip (beforeFirst "(".data (beforeFirst "\n".data (pyStrip seg))))
  | _ => none

/-- `url.split('://')[-1]` (line 236-237). -/
def postScheme (s : S) : S := (pySplit "://".data s).getLast?.getD s

/-- The bidirectional substring test of lines 229-237. -/
def matchCond (possible available : S) : Bool :=
  let cp := pyRStrip ['/'] (normalizeUrl possible)
  let ca := pyRStrip ['/'] (normalizeUrl available)
  pyIn (postScheme cp) (postScheme ca) || pyIn (postScheme ca) (postScheme cp)

/-- `_normalize_and_validate_url` (lines 208-246).  `.error` models an
exception escaping to the caller's `except` (an unset `self.base_url` or an
empty visited set; `list(self.visited_urls)[-1]` on line 214 takes an
arbitrary element of a CPython set — the model takes the most recently
inserted one, which is what the code plainly intends). -/
def normalizeAndValidate (st : St) (url0 : S) (availableLinks : List S) :
    Except Unit (Option S) :=
  let url := cleanUrl url0
  let possibleE : Except Unit (List S) :=
    if pyStartsWith "http://".data url || pyStartsWith "https://".data url then .ok [url]
    else
      match st.base_url with
      | none => .error ()
      | some base =>
        match st.visited.getLast? with
        | none => .error ()
        | some lastVisited =>
          let currentPath := (pyUrlparse lastVisited).path
          let parts := pySplit "/".data currentPath
          let currentContext :=
            if currentPath ≠ [] ∧ parts.length > 1 then parts.getD 1 [] else []
          let stripped := pyLStrip ['/'] url
          let paths := [stripped, currentContext ++ "/".data ++ stripped,
            "bloomington/".data ++ stripped]
          .ok (paths.map (pyUrljoin base))
  match possibleE with
  | .error e => .error e
  | .ok possible =>
    match availableLinks.find? (fun a => possible.any (fun p => matchCond p a)) with
    | some a => .ok (some a)
    | none =>
      match st.base_url with
      | none => .error ()
      | some base =>
        .ok (possible.find? (fun p => decide ((pyUrlparse p).netloc = (pyUrlparse base).netloc)))

/-- `_extract_next_urls` (lines 184-206): any exception inside the `try` is
caught and reported to the UI, yielding `[]`. -/
def extractNextUrls (st : St) (analysis : S) (availableLinks : List S) : List S :=
  match nextUrlRaw analysis with
  | none => []
  | some nextUrl =>
    if pyLower nextUrl = "none".data then []
    else
      let resolvedE : Except Unit (Option S) :=
        if pyStartsWith "/".data nextUrl then
          match st.base_url with
          | none => .error ()
          | some base => normalizeAndValidate st (pyUrljoin base nextUrl) availableLinks
        else normalizeAndValidate st nextUrl availableLinks
      match resolvedE with
      | .error _ => []
      | .ok (some u) => [u]
      | .ok none => []

/-- The skip return of lines 139-142. -/
def skipRes (st : St) (url : S) : AResult × St :=
  (AResult.mk (formatFinalResults st) (RMeta.skipped url), st)

/-- Lines 147-148: `f"{parsed.scheme}://{parsed.netloc}"`. -/
def baseOf (url : S) : S :=
  let p := pyUrlparse url
  p.scheme ++ "://".data ++ p.netloc

/-- Line 146: `self.visited_urls.add(url)`. -/
def visitMark (st : St) (url : S) : St := { st with visited := insertSet st.visited url }

/-- Lines 147-148: set `self.base_url` on the first visit. -/
def baseMark (st : St) (url : S) : St :=
  if st.base_url = none then { st with base_url := some (baseOf url) } else st

/-- Line 156: `self.all_internal_links.update(metadata.get('internal_links', []))`. -/
def linksMark (st : St) (links : List S) : St :=
  { st with all_internal_links := unionSet st.all_internal_links links }

/-- Line 157: `metadata['internal_links'] = list(self.all_internal_links)`. -/
def metaOf (sd : ScrapedData) (st3 : St) : ScrapedMeta :=
  { sd.metadata with internal_links := st3.all_internal_links }

/-- Lines 178-179: `self.failed_urls.add(url)` in the except-branch. -/
def failMark (st : St) (url : S) : St := { st with failed := insertSet st.failed url }

/-- `analyze_website` (lines 136-182).  The recursion budget `depth` is the
Python `int` argument; guards treat every `depth <= 0` alike, so the
non-negative `Nat` models it faithfully (callers pass the default 5 and
recurse with `depth - 1`).  `st.expander`/`st.text`/`st.error` are UI writes
with no effect on the returned values and are omitted. -/
def analyzeWebsite (fetch : Fetcher) (llm : Oracle) :
    Nat → St → S → Option S → AResult × St
  | 0, st, url, _ => skipRes st url
  | depth + 1, st, url, custom =>
    if url ∈ st.visited ∨ url ∈ st.failed then skipRes st url
    else
      match fetch url with
      | .error e =>
        (AResult.mk (formatFinalResults (failMark (baseMark (visitMark st url) url) url))
          (RMeta.fetchError url e),
          failMark (baseMark (visitMark st url) url) url)
      | .ok sd =>
        match analyzeContent llm
            (linksMark (baseMark (visitMark st url) url) sd.metadata.internal_links)
            (ScrapedData.mk sd.content
              (metaOf sd (linksMark (baseMark (visitMark st url) url)
                sd.metadata.internal_links)))
            custom with
        | none =>
          (AResult.mk
            (formatFinalResults (failMark
              (linksMark (baseMark (visitMark st url) url) sd.metadata.internal_links) url))
            (RMeta.fetchError url "not enough values to unpack (expected 2, got 1)".data),
            failMark
              (linksMark (baseMark (visitMark st url) url) sd.metadata.internal_links) url)
        | some (analysis, st4) =>
          let st5 :=
            if pyIn "NEXT_URL:".data analysis then
              (extractNextUrls st4 analysis
                (metaOf sd (linksMark (baseMark (visitMark st url) url)
                  sd.metadata.internal_links)).internal_links).foldl
                (fun acc nu =>
                  if nu ∉ acc.visited ∧ nu ∉ acc.failed then
                    (analyzeWebsite fetch llm depth acc nu custom).2
                  else acc)
                st4
            else st4
          let report :=
            match custom with
            | some c => formatCustomResults st5 c
            | none => formatFinalResults st5
          (AResult.mk report (RMeta.page (metaOf sd
            (linksMark (baseMark (visitMark st url) url) sd.metadata.internal_links))), st5)

/-! ### Facts about normalization (claim C9) -/

theorem char_toNat_ofNat_valid (n : Nat) (h : n < 55296) : (Char.ofNat n).toNat = n := by
  rw [Char.ofNat, dif_pos (Or.inl h)]
  rfl

theorem char_le_iff_toNat (a b : Char) : a ≤ b ↔ a.toNat ≤ b.toNat := by
  rw [Char.le_def, UInt32.le_def, BitVec.le_def]
  exact Iff.rfl

theorem pyLowerChar_toNat_of_upper (c : Char) (h1 : 65 ≤ c.toNat) (h2 : c.toNat ≤ 90) :
    (pyLowerChar c).toNat = c.toNat + 32 := by
  unfold pyLowerChar
  rw [if_pos ⟨(char_le_iff_toNat _ _).mpr h1, (char_le_iff_toNat _ _).mpr h2⟩,
    char_toNat_ofNat_valid _ (by omega)]

theorem pyLowerChar_eq_of_not_upper (c : Char) (h : ¬ (65 ≤ c.toNat ∧ c.toNat ≤ 90)) :
    pyLowerChar c = c := by
  unfold pyLowerChar
  rw [if_neg]
  intro hc
  exact h ⟨(char_le_iff_toNat _ _).mp hc.1, (char_le_iff_toNat _ _).mp hc.2⟩

theorem pyLowerChar_not_upper (c : Char) :
    ¬ (65 ≤ (pyLowerChar c).toNat ∧ (pyLowerChar c).toNat ≤ 90) := by
  by_cases h : 65 ≤ c.toNat ∧ c.toNat ≤ 90
  · rw [pyLowerChar_toNat_of_upper c h.1 h.2]
    omega
  · rw [pyLowerChar_eq_of_not_upper c h]
    exact h

theorem pyLowerChar_eq_slash (c : Char) (h : pyLowerChar c = '/') : c = '/' := by
  by_cases hc : 65 ≤ c.toNat ∧ c.toNat ≤ 90
  · have h2 := pyLowerChar_toNat_of_upper c hc.1 hc.2
    rw [h, show ('/' : Char).toNat = 47 from rfl] at h2
    exact absurd h2 (by omega)
  · rw [pyLowerChar_eq_of_not_upper c hc] at h
    exact h

theorem head?_dropWhile_not (p : Char → Bool) (l : List Char) (c : Char)
    (h : (l.dropWhile p).head? = some c) : p c = false := by
  induction l with
  | nil => exact absurd h (by simp)
  | cons a l ih =>
    by_cases pa : p a
    · rw [List.dropWhile_cons_of_pos pa] at h
      exact ih h
    · rw [List.dropWhile_cons_of_neg pa] at h
      injection h with h
      rw [← h]
      exact eq_false_of_ne_true pa

theorem pyRStrip_getLast (chars s : S) (c : Char)
    (h : (pyRStrip chars s).getLast? = some c) : c ∉ chars := by
  unfold pyRStrip at h
  rw [List.getLast?_reverse] at h
  have := head?_dropWhile_not _ _ _ h
  intro hc
  rw [decide_eq_true hc] at this
  cases this

/-- `normalizeUrl` never ends in a slash: `rstrip('/')` removes every trailing
slash and lower-casing maps no other character to `/`. -/
theorem normalizeUrl_no_trailing_slash (u : S) :
    (normalizeUrl u).getLast? ≠ some '/' := by
  unfold normalizeUrl pyLower
  intro h
  rw [List.getLast?_map] at h
  cases hg : (pyRStrip ['/'] ((pyUrlparse (cleanUrl u)).scheme ++ "://".data
      ++ (pyUrlparse (cleanUrl u)).netloc ++ (pyUrlparse (cleanUrl u)).path)).getLast? with
  | none => rw [hg] at h; cases h
  | some c =>
    rw [hg] at h
    injection h with h
    have := pyRStrip_getLast _ _ _ hg
    exact this (by rw [pyLowerChar_eq_slash c h]; exact List.mem_singleton_self _)

/-- `normalizeUrl` output is lower-cased: it contains no ASCII upper-case
letter. -/
theorem normalizeUrl_lowercase (u : S) (c : Char) (h : c ∈ normalizeUrl u) :
    ¬ ('A' ≤ c ∧ c ≤ 'Z') := by
  unfold normalizeUrl pyLower at h
  rcases List.mem_map.mp h with ⟨c0, _, hc0⟩
  intro hc
  exact pyLowerChar_not_upper c0 (by
    rw [hc0]
    exact ⟨(char_le_iff_toNat _ _).mp hc.1, (char_le_iff_toNat _ _).mp hc.2⟩)

theorem data_http : "http://".data = ['h', 't', 't', 'p', ':', '/', '/'] := by decide

theorem findSplit_http (rest : S) :
    findSplit "://".data (['h', 't', 't', 'p', ':', '/', '/'] ++ rest)
      = some (['h', 't', 't', 'p'], rest) := by
  rw [show "://".data = [':', '/', '/'] from by decide]
  simp only [List.cons_append, List.nil_append]
  simp [findSplit, List.isPrefixOf,
    (by decide : (':' == 'h') = false), (by decide : (':' == 't') = false),
    (by decide : (':' == 'p') = false), (by decide : (':' == ':') = true),
    (by decide : ('/' == '/') = true)]

theorem pyStripChars_http (rest : S)
    (h1 : rest.getLast? ≠ some '\'') (h2 : rest.getLast? ≠ some '"') :
    pyStripChars ['\'', '"'] (['h', 't', 't', 'p', ':', '/', '/'] ++ rest)
      = ['h', 't', 't', 'p', ':', '/', '/'] ++ rest := by
  by_cases hr : rest = []
  · subst hr
    decide
  · unfold pyStripChars pyLStrip pyRStrip
    have hl : (['h', 't', 't', 'p', ':', '/', '/'] ++ rest).dropWhile
        (fun c => decide (c ∈ ['\'', '"'])) = ['h', 't', 't', 'p', ':', '/', '/'] ++ rest := by
      rw [List.cons_append, List.dropWhile_cons_of_neg (by decide)]
    rw [hl]
    cases hrev : (['h', 't', 't', 'p', ':', '/', '/'] ++ rest).reverse with
    | nil =>
      have : (['h', 't', 't', 'p', ':', '/', '/'] ++ rest) = [] := by
        rw [← List.reverse_reverse (['h', 't', 't', 'p', ':', '/', '/'] ++ rest), hrev]
        rfl
      exact absurd this (by simp)
    | cons a t =>
      have hlast : (['h', 't', 't', 'p', ':', '/', '/'] ++ rest).getLast? = some a := by
        rw [← List.head?_reverse, hrev]
        rfl
      rw [List.getLast?_append_of_ne_nil _ hr] at hlast
      have ha : ¬ (a ∈ ['\'', '"']) := by
        intro hc
        rcases List.mem_pair.mp hc with hc | hc
        · exact h1 (hc ▸ hlast)
        · exact h2 (hc ▸ hlast)
      rw [List.dropWhile_cons_of_neg (by simpa using ha), ← hrev, List.reverse_reverse]

/-- `_clean_url` never touches the scheme: on an `http://`-URL (with no
trailing quote to strip) it rewrites only the part after the first `://`. -/
theorem cleanUrl_scheme (rest : S) (h1 : rest.getLast? ≠ some '\'')
    (h2 : rest.getLast? ≠ some '"') :
    cleanUrl ("http://".data ++ rest) = "http://".data ++ pyReplace "//".data "/".data rest := by
  unfold cleanUrl
  rw [data_http, pyStripChars_http rest h1 h2, findSplit_http]
  rfl

/-- C9: URL normalization collapses duplicated slashes after the scheme
separator without touching the scheme itself, and yields the lower-cased
`scheme://host/path` form with no trailing slash; in particular
`normalize("HTTP://Example.com//a//b/")` equals
`normalize("http://example.com/a/b")`. -/
theorem c9_normalization :
    (normalizeUrl "HTTP://Example.com//a//b/".data
        = normalizeUrl "http://example.com/a/b".data)
    ∧ (∀ u : S, (normalizeUrl u).getLast? ≠ some '/')
    ∧ (∀ u : S, ∀ c ∈ normalizeUrl u, ¬ ('A' ≤ c ∧ c ≤ 'Z'))
    ∧ (∀ rest : S, rest.getLast? ≠ some '\'' → rest.getLast? ≠ some '"' →
        cleanUrl ("http://".data ++ rest)
          = "http://".data ++ pyReplace "//".data "/".data rest) :=
  ⟨by decide, normalizeUrl_no_trailing_slash,
    fun u c h => normalizeUrl_lowercase u c h, cleanUrl_scheme⟩

/-- Witness for C9 at a concrete input: the scheme-preservation conjunct
applied to the rest-string `a//b`. -/
theorem c9_normalization_witness :
    cleanUrl ("http://".data ++ "a//b".data)
      = "http://".data ++ pyReplace "//".data "/".data "a//b".data :=
  c9_normalization.2.2.2 "a//b".data (by decide) (by decide)

/-- C6: with `depth <= 0`, or a URL already in the visited set or in the
failed set, `analyze_website` returns immediately with status `skipped` and
leaves the whole controller state exactly unchanged. -/
theorem c6_skip_guard (fetch : Fetcher) (llm : Oracle) (depth : Nat) (st : St)
    (url : S) (custom : Option S)
    (h : depth ≤ 0 ∨ url ∈ st.visited ∨ url ∈ st.failed) :
    analyzeWebsite fetch llm depth st url custom
      = (AResult.mk (formatFinalResults st) (RMeta.skipped url), st) := by
  cases depth with
  | zero => rfl
  | succ d =>
    rcases h with h | h
    · exact absurd h (by omega)
    · show (if url ∈ st.visited ∨ url ∈ st.failed then skipRes st url else _) = _
      rw [if_pos h]
      rfl

/-- Witness for C6: a skipped call at `depth = 0` on a fresh state. -/
theorem c6_skip_guard_witness :
    analyzeWebsite (fun _ => Except.error []) (fun _ => []) 0 emptySt "http://h".data none
      = (AResult.mk (formatFinalResults emptySt) (RMeta.skipped "http://h".data), emptySt) :=
  c6_skip_guard _ _ 0 emptySt "http://h".data none (Or.inl (Nat.le_refl 0))

/-- Counterexample to C7 as stated: model output `"NEXT_URL:"` leaves an empty
next-URL value, yet `_extract_next_urls` does not fail soft — the empty value
enters `_normalize_and_validate_url`, whose substring matching resolves it to
the available link, so a URL is followed. -/
theorem c7_counterexample :
    nextUrlRaw "NEXT_URL:".data = some []
    ∧ extractNextUrls (St.mk ["http://h".data] [] (some "http://h".data) emptyInfo [] [])
        "NEXT_URL:".data ["http://h/x".data] = ["http://h/x".data]
    ∧ ["http://h/x".data] ≠ ([] : List S) := by decide

/-- C7 amended: next-URL resolution fails soft (returns no URL to follow, for
every controller state and every set of available links) when the `NEXT_URL:`
marker is absent from the model output, or when the value on the marker's
line, after stripping trailing parenthesized commentary, equals `"none"`
case-insensitively.  (An *empty* value is not failed soft: it proceeds into
URL validation — see the counterexample.) -/
theorem c7_soft_fail (st : St) (analysis : S) (links : List S) :
    (nextUrlRaw analysis = none → extractNextUrls st analysis links = [])
    ∧ (∀ v : S, nextUrlRaw analysis = some v → pyLower v = "none".data →
        extractNextUrls st analysis links = []) := by
  constructor
  · intro h
    unfold extractNextUrls
    rw [h]
  · intro v hv hlow
    unfold extractNextUrls
    rw [hv]
    show (if pyLower v = "none".data then [] else _) = []
    rw [if_pos hlow]

/-- Witness for C7 amended: both soft-fail cases at concrete inputs. -/
theorem c7_soft_fail_witness :
    extractNextUrls emptySt "no marker here".data ["http://h/x".data] = []
    ∧ extractNextUrls emptySt "NEXT_URL:\nNone".data ["http://h/x".data] = [] :=
  ⟨(c7_soft_fail emptySt "no marker here".data ["http://h/x".data]).1 (by decide),
   (c7_soft_fail emptySt "NEXT_URL:\nNone".data ["http://h/x".data]).2
     "None".data (by decide) (by decide)⟩

/-- `parseCustomInfo` never produces a repeated key (it builds its dict with
dict assignment from empty). -/
theorem parseCustomInfo_nodup (text : S) : NodupA (parseCustomInfo text) := by
  unfold parseCustomInfo
  have main : ∀ (ls : List S) (acc : FieldMap), NodupA acc →
      NodupA (ls.foldl (fun acc line0 =>
        let line := pyStrip line0
        if pyIn ":".data line ∧ ¬ pyStartsWith "http".data line then
          match findSplit ":".data line with
          | none => acc
          | some (k0, v0) =>
            let k := pyStrip k0
            let v := pyStrip v0
            if v ≠ [] ∧ isSentinel v = false then aupd acc k v else acc
        else acc) acc) := by
    intro ls
    induction ls with
    | nil => exact fun acc h => h
    | cons l ls ih =>
      intro acc h
      refine ih _ ?_
      by_cases h1 : pyIn ":".data (pyStrip l) ∧ ¬ pyStartsWith "http".data (pyStrip l)
      · simp only [if_pos h1]
        cases findSplit ":".data (pyStrip l) with
        | none => exact h
        | some kv =>
          obtain ⟨k0, v0⟩ := kv
          by_cases h2 : pyStrip v0 ≠ [] ∧ isSentinel (pyStrip v0) = false
          · simp only [if_pos h2]
            exact aupd_nodup _ _ _ h
          · simp only [if_neg h2]
            exact h
      · simp only [if_neg h1]
        exact h
  exact main _ [] nodupA_nil

/-- Counterexample to C1 as stated: with `Custom["k"] = "abc"` accumulated, an
oracle response carrying `k: z` overwrites the value with the *shorter* `"z"`
(`dict.update`), instead of keeping the longer `"abc"` as the claim requires. -/
theorem c1_counterexample :
    customUpdate (InfoDict.mk [("Custom".data, [("k".data, "abc".data)])] none)
        "EXTRACTED_INFO:\nk: z\nNEXT_URL:\nnone".data
      = InfoDict.mk [("Custom".data, [("k".data, "z".data)])] none
    ∧ ("z".data : S).length < ("abc".data : S).length := by decide

/-- C1 amended: in custom mode, for every oracle response containing the
`EXTRACTED_INFO:` marker, the slice between `EXTRACTED_INFO:` and `NEXT_URL:`
is parsed into flat key/value pairs by the colon-split heuristic (modelled
from the spec — `_parse_custom_info` is not defined in the repository) and
merged into the `Custom` section by `dict.update`: per key, the freshly parsed
value wins outright (regardless of length), and keys the parse does not
mention keep their accumulated value. -/
theorem c1_custom_merge (found : InfoDict) (analysis : S) (k : S)
    (h : pyIn "EXTRACTED_INFO:".data analysis = true) :
    alookup ((alookup (customUpdate found analysis).sectionsF "Custom".data).getD []) k
      = match alookup (parseCustomInfo (extractedSlice analysis)) k with
        | some v => some v
        | none => alookup ((alookup found.sectionsF "Custom".data).getD []) k := by
  unfold customUpdate
  rw [if_pos h]
  show alookup ((alookup (aupd found.sectionsF "Custom".data _) "Custom".data).getD []) k = _
  rw [alookup_aupd_self]
  show alookup (dictUpdate ((alookup found.sectionsF "Custom".data).getD [])
    (parseCustomInfo (extractedSlice analysis))) k = _
  rw [alookup_dictUpdate _ _ _ (parseCustomInfo_nodup _)]

/-- Witness for C1 amended: a concrete response updates `Custom["k"]` to the
parsed value and leaves the unmentioned key `"other"` untouched. -/
theorem c1_custom_merge_witness :
    alookup ((alookup (customUpdate (InfoDict.mk [("Custom".data,
        [("k".data, "abc".data), ("other".data, "kept".data)])] none)
        "EXTRACTED_INFO:\nk: z\nNEXT_URL:\nnone".data).sectionsF "Custom".data).getD [])
        "other".data
      = match alookup (parseCustomInfo (extractedSlice
          "EXTRACTED_INFO:\nk: z\nNEXT_URL:\nnone".data)) "other".data with
        | some v => some v
        | none => alookup ((alookup (InfoDict.mk [("Custom".data,
            [("k".data, "abc".data), ("other".data, "kept".data)])] none).sectionsF
            "Custom".data).getD []) "other".data :=
  c1_custom_merge _ _ "other".data (by decide)

/-- C5: merging a freshly-parsed service entry whose `Name` exactly equals an
existing entry's `Name` updates that (first such) entry field-wise via
`dict.update` and appends nothing; an entry with no exactly-matching `Name` is
appended.  Concretely, merging `- Name: Food Bank / - Phone Numbers: 555-1111`
and then `- Name: Food Bank / - Description: Provides groceries` (each parsed
under the Service/Program section) yields exactly one service entry carrying
`Name`, `Phone Numbers` and `Description`. -/
theorem c5_service_dedup :
    (applyMerge (applyMerge emptyInfo
        "SERVICE/PROGRAM LEVEL:\n- Name: Food Bank\n- Phone Numbers: 555-1111".data)
        "SERVICE/PROGRAM LEVEL:\n- Name: Food Bank\n- Description: Provides groceries".data
      = InfoDict.mk [] (some [[("Name".data, "Food Bank".data),
          ("Phone Numbers".data, "555-1111".data),
          ("Description".data, "Provides groceries".data)]]))
    ∧ (∀ (acc : List FieldMap) (svc : FieldMap),
        (∀ e ∈ acc, nameOf e ≠ nameOf svc) → mergeOneService acc svc = acc ++ [svc])
    ∧ (∀ (pre : List FieldMap) (e : FieldMap) (post : List FieldMap) (svc : FieldMap),
        (∀ e' ∈ pre, nameOf e' ≠ nameOf svc) → nameOf e = nameOf svc →
        mergeOneService (pre ++ e :: post) svc = pre ++ dictUpdate e svc :: post) := by
  refine ⟨by decide, ?_, ?_⟩
  · intro acc svc h
    induction acc with
    | nil => rfl
    | cons e rest ih =>
      rw [mergeOneService_cons, if_neg (h e (List.mem_cons_self _ _)),
        ih (fun e' he' => h e' (List.mem_cons_of_mem _ he')), List.cons_append]
  · intro pre e post svc hpre he
    induction pre with
    | nil =>
      rw [List.nil_append, List.nil_append, mergeOneService_cons, if_pos he]
    | cons p pre ih =>
      rw [List.cons_append, mergeOneService_cons, if_neg (hpre p (List.mem_cons_self _ _)),
        ih (fun e' he' => hpre e' (List.mem_cons_of_mem _ he')), List.cons_append]

/-- Witness for C5: the append case at a concrete accumulator with a different
name. -/
theorem c5_service_dedup_witness :
    mergeOneService [[("Name".data, "A".data)]] [("Name".data, "B".data)]
      = [[("Name".data, "A".data)]] ++ [[("Name".data, "B".data)]] :=
  c5_service_dedup.2.1 [[("Name".data, "A".data)]] [("Name".data, "B".data)] (by decide)

/-- C10: when parsing the `NEW_INFO:` slice, a key/value line in a non-Services
section whose computed key (the stripped text before the first colon) begins
with the literal `Field` is discarded — the parser state is left exactly
unchanged — even when its value is non-empty and non-sentinel; inside a
Services entry no such filter exists and the field is stored on the open
service entry. -/
theorem c10_field_filter :
    (∀ (ps : ParseSt) (line0 sec k0 v0 : S),
      pyStrip line0 ≠ [] →
      headerFor (pyUpper (pyStrip line0)) = none →
      ps.csection = some sec →
      sec ≠ "Services".data →
      findSplit ":".data (pyStrip line0) = some (k0, v0) →
      pyStartsWith "http".data (pyStrip line0) = false →
      pyStartsWith "Field".data (pyStrip k0) = true →
      parseLine ps line0 = some ps)
    ∧ (∀ (ps : ParseSt) (line0 : S) (l : List FieldMap) (cur : FieldMap) (k0 v0 : S),
      headerFor (pyUpper (pyStrip line0)) = none →
      ps.csection = some "Services".data →
      ps.temp.services = some (l ++ [cur]) →
      pyStartsWith "- ".data (pyStrip line0) = true →
      pyStartsWith "- Name:".data (pyStrip line0) = false →
      findSplit ":".data ((pyStrip line0).drop 2) = some (k0, v0) →
      pyStrip v0 ≠ [] →
      isSentinel (pyStrip v0) = false →
      parseLine ps line0 = some (ParseSt.mk ps.csection
        (InfoDict.mk ps.temp.sectionsF
          (some (l ++ [aupd cur (pyStrip k0) (pyStrip v0)]))))) := by
  constructor
  · intro ps line0 sec k0 v0 hne hhd hsec hnsvc hsplit hhttp hfield
    obtain ⟨cs, temp⟩ := ps
    have hcs : cs = some sec := hsec
    subst hcs
    have key : fieldsLine temp sec (pyStrip line0) = temp := by
      unfold fieldsLine
      rw [hsplit]
      show (if ¬ pyStartsWith "Field".data (pyStrip k0) = true ∧ pyStrip v0 ≠ []
          ∧ isSentinel (pyStrip v0) = false then _ else temp) = temp
      rw [if_neg (by rw [hfield]; simp)]
    unfold parseLine
    simp only [hhd]
    rw [if_neg hne]
    unfold parseDispatch
    rw [if_neg (show ¬ (ParseSt.mk (some sec) temp).csection = some "Services".data by
      intro hc
      exact hnsvc (Option.some.inj hc))]
    rw [if_pos ⟨show pyIn ":".data (pyStrip line0) = true by unfold pyIn; rw [hsplit]; rfl,
      show ¬ pyStartsWith "http".data (pyStrip line0) = true by rw [hhttp]; simp⟩]
    show some (ParseSt.mk (some sec) (fieldsLine temp sec (pyStrip line0)))
      = some (ParseSt.mk (some sec) temp)
    rw [key]
  · intro ps line0 l cur k0 v0 hhd hsec hsvcs hdash hname hsplit hv hsent
    obtain ⟨cs, temp⟩ := ps
    have hcs : cs = some "Services".data := hsec
    subst hcs
    have hsvcs' : temp.services = some (l ++ [cur]) := hsvcs
    have hne : pyStrip line0 ≠ [] := by
      intro hc
      rw [hc] at hdash
      cases hdash
    have hsv : svcs1Of temp (pyStrip line0) = l ++ [cur] := by
      unfold svcs1Of
      rw [hsvcs', if_neg (by rw [hname]; simp)]
      rfl
    have key : servicesLine temp (pyStrip line0)
        = some (InfoDict.mk temp.sectionsF (some (l ++ [aupd cur (pyStrip k0) (pyStrip v0)]))) := by
      unfold servicesLine
      rw [hsv, if_pos ⟨hdash, (by simp : l ++ [cur] ≠ [])⟩, hsplit]
      show (if pyStrip v0 ≠ [] ∧ isSentinel (pyStrip v0) = false then _ else _) = _
      rw [if_pos ⟨hv, hsent⟩]
      rw [show (l ++ [cur]).dropLast = l by rw [List.dropLast_concat],
        show (l ++ [cur]).getLast?.getD [] = cur by rw [List.getLast?_concat]; rfl]
    unfold parseLine
    simp only [hhd]
    rw [if_neg hne]
    unfold parseDispatch
    rw [if_pos rfl]
    show (match servicesLine temp (pyStrip line0) with
          | none => none
          | some t => some (ParseSt.mk (some "Services".data) t)) = _
    rw [key]

/-- Witness for C10: a `Field 1` line in the Agency section is dropped, while
a `- Field 1:` line in an open service entry is stored. -/
theorem c10_field_filter_witness :
    parseLine (ParseSt.mk (some "Agency Level".data)
        (InfoDict.mk [("Agency Level".data, [])] none)) "Field 1: some value".data
      = some (ParseSt.mk (some "Agency Level".data)
          (InfoDict.mk [("Agency Level".data, [])] none))
    ∧ parseLine (ParseSt.mk (some "Services".data)
        (InfoDict.mk [] (some [[("Name".data, "A".data)]]))) "- Field 1: some value".data
      = some (ParseSt.mk (some "Services".data)
          (InfoDict.mk [] (some [[("Name".data, "A".data),
            ("Field 1".data, "some value".data)]]))) :=
  ⟨c10_field_filter.1 _ "Field 1: some value".data "Agency Level".data
      "Field 1".data " some value".data (by decide) (by decide) rfl (by decide)
      (by decide) (by decide) (by decide),
   c10_field_filter.2 _ "- Field 1: some value".data [] [("Name".data, "A".data)]
      "Field 1".data " some value".data (by decide) rfl rfl (by decide) (by decide)
      (by decide) (by decide) (by decide)⟩

/-! ### Idempotence of re-merging (claim C4) -/

theorem alookup_append {α : Type} (m1 m2 : List (S × α)) (k : S) :
    alookup (m1 ++ m2) k
      = match alookup m1 k with
        | some v => some v
        | none => alookup m2 k := by
  induction m1 with
  | nil => rfl
  | cons p rest ih =>
    obtain ⟨k0, v0⟩ := p
    rw [List.cons_append, alookup_cons, alookup_cons]
    by_cases hk : k = k0
    · rw [if_pos hk, if_pos hk]
    · rw [if_neg hk, if_neg hk, ih]

theorem mem_keys_alookup {α : Type} (m : List (S × α)) (k : S) (h : k ∈ keysA m) :
    ∃ v, alookup m k = some v := by
  induction m with
  | nil => exact absurd h (List.not_mem_nil _)
  | cons p rest ih =>
    obtain ⟨k0, v0⟩ := p
    rw [keysA_cons, List.mem_cons] at h
    by_cases hk : k = k0
    · exact ⟨v0, by rw [alookup_cons, if_pos hk]⟩
    · rcases h with h | h
      · exact absurd h hk
      · rcases ih h with ⟨v, hv⟩
        exact ⟨v, by rw [alookup_cons, if_neg hk]; exact hv⟩

theorem alookup_none_not_mem {α : Type} (m : List (S × α)) (k : S)
    (h : alookup m k = none) : k ∉ keysA m := by
  intro hc
  rcases mem_keys_alookup m k hc with ⟨v, hv⟩
  rw [hv] at h
  cases h

theorem alookup_mem_pair {α : Type} (m : List (S × α)) (k : S) (v : α)
    (h : alookup m k = some v) : (k, v) ∈ m := by
  induction m with
  | nil => cases h
  | cons p rest ih =>
    obtain ⟨k0, v0⟩ := p
    rw [alookup_cons] at h
    by_cases hk : k = k0
    · rw [if_pos hk] at h
      injection h with h
      subst hk
      subst h
      exact List.mem_cons_self _ _
    · rw [if_neg hk] at h
      exact List.mem_cons_of_mem _ (ih h)

theorem nodupA_append_fresh {α : Type} (m : List (S × α)) (k : S) (v : α)
    (hm : NodupA m) (hk : k ∉ keysA m) : NodupA (m ++ [(k, v)]) := by
  unfold NodupA at *
  have hmap : keysA (m ++ [(k, v)]) = keysA m ++ [k] := by
    unfold keysA
    rw [List.map_append]
    rfl
  rw [hmap]
  exact List.Nodup.append hm (List.nodup_singleton k) (List.disjoint_singleton.mpr hk)

theorem getLast_getD_mem {α : Type} (l : List α) (d : α) (h : l ≠ []) :
    l.getLast?.getD d ∈ l := by
  induction l using List.reverseRecOn with
  | nil => exact absurd rfl h
  | append_singleton xs x _ =>
    rw [List.getLast?_concat]
    exact List.mem_append_right _ (List.mem_singleton_self x)

theorem foldl_id {α β : Type} (f : α → β → α) (a : α) (l : List β)
    (h : ∀ x ∈ l, f a x = a) : l.foldl f a = a := by
  induction l with
  | nil => rfl
  | cons x xs ih =>
    rw [List.foldl_cons, h x (List.mem_cons_self _ _)]
    exact ih (fun y hy => h y (List.mem_cons_of_mem _ hy))

/-- The well-formedness `_update_found_info`'s parse phase maintains: the
section dict and every field map it builds have pairwise-distinct keys
(CPython dicts cannot hold a key twice). -/
def MapsOk (t : InfoDict) : Prop :=
  NodupA t.sectionsF ∧ (∀ sd ∈ t.sectionsF, NodupA sd.2)
    ∧ (∀ svc ∈ t.services.getD [], NodupA svc)

theorem initSection_maps (t : InfoDict) (sec : S) (h : MapsOk t) :
    MapsOk (initSection t sec) := by
  obtain ⟨sf, svcs⟩ := t
  obtain ⟨h1, h2, h3⟩ := h
  unfold initSection
  by_cases hs : sec = "Services".data
  · rw [if_pos hs]
    cases svcs with
    | none => exact ⟨h1, h2, fun svc hsvc => absurd hsvc (List.not_mem_nil _)⟩
    | some l => exact ⟨h1, h2, h3⟩
  · rw [if_neg hs]
    cases hl : alookup sf sec with
    | none =>
      refine ⟨nodupA_append_fresh _ _ _ h1 (alookup_none_not_mem _ _ hl), ?_, h3⟩
      intro sd hsd
      rcases List.mem_append.mp hsd with hsd | hsd
      · exact h2 sd hsd
      · rw [List.mem_singleton.mp hsd]
        exact nodupA_nil
    | some m => exact ⟨h1, h2, h3⟩

theorem svcs1Of_nodup (t : InfoDict) (line : S)
    (h3 : ∀ svc ∈ t.services.getD [], NodupA svc) :
    ∀ svc ∈ svcs1Of t line, NodupA svc := by
  unfold svcs1Of
  by_cases hn : pyStartsWith "- Name:".data line = true
  · rw [if_pos hn]
    intro svc hsvc
    rcases List.mem_append.mp hsvc with hsvc | hsvc
    · exact h3 svc hsvc
    · rw [List.mem_singleton.mp hsvc]
      exact nodupA_nil
  · rw [if_neg hn]
    exact h3

theorem servicesLine_maps (t t' : InfoDict) (line : S)
    (h : servicesLine t line = some t') (hm : MapsOk t) : MapsOk t' := by
  obtain ⟨h1, h2, h3⟩ := hm
  have hsvcs1 : ∀ svc ∈ svcs1Of t line, NodupA svc := svcs1Of_nodup t line h3
  unfold servicesLine at h
  split at h
  · rename_i hcond
    split at h
    · cases h
    · split at h
      · injection h with h
        subst h
        refine ⟨h1, h2, ?_⟩
        intro svc hsvc
        rcases List.mem_append.mp hsvc with hsvc | hsvc
        · exact hsvcs1 svc (List.dropLast_subset _ hsvc)
        · rw [List.mem_singleton.mp hsvc]
          exact aupd_nodup _ _ _ (hsvcs1 _ (getLast_getD_mem _ _ hcond.2))
      · injection h with h
        subst h
        exact ⟨h1, h2, hsvcs1⟩
  · injection h with h
    subst h
    exact ⟨h1, h2, hsvcs1⟩

theorem fieldsLine_maps (t : InfoDict) (sec line : S) (hm : MapsOk t) :
    MapsOk (fieldsLine t sec line) := by
  obtain ⟨h1, h2, h3⟩ := hm
  unfold fieldsLine
  split
  · exact ⟨h1, h2, h3⟩
  · split
    · rename_i k0 v0 hcond
      have hcur : NodupA ((alookup t.sectionsF sec).getD []) := by
        cases hl : alookup t.sectionsF sec with
        | none => exact nodupA_nil
        | some m => exact h2 (sec, m) (alookup_mem_pair _ _ _ hl)
      refine ⟨aupd_nodup _ _ _ h1, ?_, h3⟩
      intro sd hsd
      rcases mem_of_mem_aupd _ _ _ _ hsd with hsd | hsd
      · exact h2 sd hsd
      · rw [hsd]
        exact aupd_nodup _ _ _ hcur
    · exact ⟨h1, h2, h3⟩

theorem parseDispatch_maps (ps1 ps' : ParseSt) (line : S)
    (h : parseDispatch ps1 line = some ps') (hm : MapsOk ps1.temp) : MapsOk ps'.temp := by
  unfold parseDispatch at h
  by_cases hs : ps1.csection = some "Services".data
  · rw [if_pos hs] at h
    cases hsl : servicesLine ps1.temp line with
    | none => rw [hsl] at h; cases h
    | some t =>
      rw [hsl] at h
      injection h with h
      subst h
      exact servicesLine_maps _ _ _ hsl hm
  · rw [if_neg hs] at h
    by_cases hc : pyIn ":".data line = true ∧ ¬ pyStartsWith "http".data line = true
    · rw [if_pos hc] at h
      cases hcs : ps1.csection with
      | none =>
        rw [hcs] at h
        injection h with h
        subst h
        exact hm
      | some sec =>
        rw [hcs] at h
        injection h with h
        subst h
        exact fieldsLine_maps _ _ _ hm
    · rw [if_neg hc] at h
      injection h with h
      subst h
      exact hm

theorem parseLine_maps (ps ps' : ParseSt) (line0 : S)
    (h : parseLine ps line0 = some ps') (hm : MapsOk ps.temp) : MapsOk ps'.temp := by
  unfold parseLine at h
  by_cases h0 : pyStrip line0 = []
  · rw [if_pos h0] at h
    injection h with h
    subst h
    exact hm
  · rw [if_neg h0] at h
    cases hh : headerFor (pyUpper (pyStrip line0)) with
    | none =>
      rw [hh] at h
      exact parseDispatch_maps _ _ _ h hm
    | some hd =>
      rw [hh] at h
      exact parseDispatch_maps _ _ _ h (initSection_maps _ _ hm)

theorem foldParse_none (lines : List S) :
    lines.foldl (fun acc l => acc.bind (fun ps => parseLine ps l)) none = none := by
  induction lines with
  | nil => rfl
  | cons l ls ih => exact ih

theorem foldParse_maps (lines : List S) (ps : ParseSt) (res : ParseSt)
    (hm : MapsOk ps.temp)
    (h : lines.foldl (fun acc l => acc.bind (fun ps => parseLine ps l)) (some ps)
      = some res) : MapsOk res.temp := by
  induction lines generalizing ps with
  | nil =>
    injection h with h
    subst h
    exact hm
  | cons l ls ih =>
    rw [List.foldl_cons] at h
    cases hpl : parseLine ps l with
    | none =>
      rw [show (some ps).bind (fun ps => parseLine ps l) = none from hpl,
        foldParse_none] at h
      cases h
    | some ps1 =>
      rw [show (some ps).bind (fun ps => parseLine ps l) = some ps1 by
        show parseLine ps l = some ps1
        exact hpl] at h
      exact ih ps1 (parseLine_maps _ _ _ hpl hm) h

theorem parseNewInfo_maps (text : S) (temp : InfoDict)
    (h : parseNewInfo text = some temp) : MapsOk temp := by
  unfold parseNewInfo at h
  cases hf : (pySplit "\n".data text).foldl
      (fun acc l => acc.bind (fun ps => parseLine ps l)) (some (ParseSt.mk none emptyInfo)) with
  | none => rw [hf] at h; cases h
  | some res =>
    rw [hf] at h
    injection h with h
    subst h
    exact foldParse_maps _ _ _
      ⟨nodupA_nil, fun sd hsd => absurd hsd (List.not_mem_nil _),
        fun svc hsvc => absurd hsvc (List.not_mem_nil _)⟩ hf

theorem mergeFields_fresh (m d : FieldMap) (hd : NodupA d)
    (hfresh : ∀ k ∈ keysA d, alookup m k = none) : mergeFields m d = m ++ d := by
  induction d generalizing m with
  | nil => rw [List.append_nil]; rfl
  | cons kv d ih =>
    obtain ⟨k, v⟩ := kv
    unfold NodupA at hd
    rw [keysA_cons, List.nodup_cons] at hd
    have hk0 : alookup m k = none := hfresh k (List.mem_cons_self _ _)
    have hstep : keepLonger m (k, v) = m ++ [(k, v)] := by
      unfold keepLonger
      rw [hk0]
      exact aupd_append_fresh _ _ _ (alookup_none_not_mem _ _ hk0)
    show mergeFields (keepLonger m (k, v)) d = m ++ (k, v) :: d
    rw [hstep]
    rw [ih _ hd.2 (fun k' hk' => by
      rw [alookup_append, hfresh k' (List.mem_cons_of_mem _ hk')]
      show alookup [(k, v)] k' = none
      rw [alookup_cons, if_neg (fun hc : k' = k => hd.1 (hc ▸ hk')), alookup_nil])]
    rw [List.append_assoc, List.singleton_append]

theorem mergeFields_replay (m d : FieldMap)
    (h : ∀ kv ∈ d, alookup m kv.1 = some kv.2) : mergeFields m d = m := by
  apply foldl_id
  intro kv hkv
  unfold keepLonger
  rw [h kv hkv]
  show (if kv.2.length > kv.2.length then aupd m kv.1 kv.2 else m) = m
  rw [if_neg (by omega)]

theorem mergeSections_fresh (sds : List (S × FieldMap)) (acc : InfoDict)
    (hnd : NodupA sds) (hmaps : ∀ sd ∈ sds, NodupA sd.2)
    (hfresh : ∀ sd ∈ sds, alookup acc.sectionsF sd.1 = none) :
    sds.foldl mergeSectionStep acc = InfoDict.mk (acc.sectionsF ++ sds) acc.services := by
  induction sds generalizing acc with
  | nil => rw [List.append_nil]; rfl
  | cons sd sds ih =>
    obtain ⟨sec, data⟩ := sd
    unfold NodupA at hnd
    rw [keysA_cons, List.nodup_cons] at hnd
    have hf0 : alookup acc.sectionsF sec = none := hfresh _ (List.mem_cons_self _ _)
    have hstep : mergeSectionStep acc (sec, data)
        = InfoDict.mk (acc.sectionsF ++ [(sec, data)]) acc.services := by
      unfold mergeSectionStep
      rw [hf0]
      show InfoDict.mk (aupd acc.sectionsF sec (mergeFields [] data)) acc.services = _
      rw [mergeFields_fresh [] data (hmaps _ (List.mem_cons_self _ _)) (fun k _ => rfl),
        List.nil_append, aupd_append_fresh _ _ _ (alookup_none_not_mem _ _ hf0)]
    show sds.foldl mergeSectionStep (mergeSectionStep acc (sec, data)) = _
    rw [hstep]
    rw [ih _ hnd.2 (fun sd' hsd' => hmaps sd' (List.mem_cons_of_mem _ hsd'))
      (fun sd' hsd' => by
        show alookup (acc.sectionsF ++ [(sec, data)]) sd'.1 = none
        rw [alookup_append, hfresh sd' (List.mem_cons_of_mem _ hsd')]
        show alookup [(sec, data)] sd'.1 = none
        rw [alookup_cons, if_neg (fun hc : sd'.1 = sec =>
          hnd.1 (hc ▸ List.mem_map_of_mem Prod.fst hsd')), alookup_nil])]
    show InfoDict.mk ((acc.sectionsF ++ [(sec, data)]) ++ sds) acc.services = _
    rw [List.append_assoc, List.singleton_append]

theorem mergeSections_replay (sds : List (S × FieldMap)) (acc : InfoDict)
    (hmaps : ∀ sd ∈ sds, NodupA sd.2)
    (hlook : ∀ sd ∈ sds, alookup acc.sectionsF sd.1 = some sd.2) :
    sds.foldl mergeSectionStep acc = acc := by
  apply foldl_id
  intro sd hsd
  obtain ⟨sec, data⟩ := sd
  unfold mergeSectionStep
  rw [hlook _ hsd]
  show InfoDict.mk (aupd acc.sectionsF sec (mergeFields data data)) acc.services = acc
  rw [mergeFields_replay data data
    (fun kv hkv => alookup_of_mem_nodup _ _ _ (hmaps _ hsd) hkv)]
  rw [aupd_self _ _ _ (hlook _ hsd)]

/-- Re-merging the very same parsed page into the accumulator it produced from
empty changes nothing. -/
theorem mergeTemp_idem (temp : InfoDict) (hm : MapsOk temp) :
    mergeTemp (mergeTemp emptyInfo temp) temp = mergeTemp emptyInfo temp := by
  obtain ⟨hnd, hmaps, hsvcs⟩ := hm
  have h1 : temp.sectionsF.foldl mergeSectionStep emptyInfo
      = InfoDict.mk temp.sectionsF none := by
    rw [mergeSections_fresh temp.sectionsF emptyInfo hnd hmaps (fun sd _ => rfl)]
    rfl
  have hreplay : ∀ acc : InfoDict, acc.sectionsF = temp.sectionsF →
      temp.sectionsF.foldl mergeSectionStep acc = acc := by
    intro acc hacc
    apply mergeSections_replay _ _ hmaps
    intro sd hsd
    rw [hacc]
    exact alookup_of_mem_nodup _ _ _ hnd hsd
  cases hts : temp.services with
  | none =>
    have hfirst : mergeTemp emptyInfo temp = InfoDict.mk temp.sectionsF none := by
      unfold mergeTemp
      rw [hts]
      exact h1
    have hsecond : mergeTemp (InfoDict.mk temp.sectionsF none) temp
        = InfoDict.mk temp.sectionsF none := by
      unfold mergeTemp
      rw [hts]
      exact hreplay _ rfl
    rw [hfirst, hsecond]
  | some svcs =>
    have hnodups : ∀ s ∈ svcs, NodupA s := by
      intro s hs
      apply hsvcs
      rw [hts]
      exact hs
    have hfirst : mergeTemp emptyInfo temp
        = InfoDict.mk temp.sectionsF (some (mergeServices [] svcs)) := by
      unfold mergeTemp
      rw [hts]
      show InfoDict.mk (temp.sectionsF.foldl mergeSectionStep emptyInfo).sectionsF
          (some (mergeServices
            ((temp.sectionsF.foldl mergeSectionStep emptyInfo).services.getD []) svcs))
        = InfoDict.mk temp.sectionsF (some (mergeServices [] svcs))
      rw [h1]
      rfl
    have hsecond : mergeTemp (InfoDict.mk temp.sectionsF (some (mergeServices [] svcs))) temp
        = InfoDict.mk temp.sectionsF (some (mergeServices [] svcs)) := by
      unfold mergeTemp
      rw [hts]
      have hrep := hreplay (InfoDict.mk temp.sectionsF (some (mergeServices [] svcs))) rfl
      show InfoDict.mk (temp.sectionsF.foldl mergeSectionStep
            (InfoDict.mk temp.sectionsF (some (mergeServices [] svcs)))).sectionsF
          (some (mergeServices
            ((temp.sectionsF.foldl mergeSectionStep
              (InfoDict.mk temp.sectionsF (some (mergeServices [] svcs)))).services.getD []) svcs))
        = InfoDict.mk temp.sectionsF (some (mergeServices [] svcs))
      rw [hrep]
      show InfoDict.mk temp.sectionsF (some (mergeServices (mergeServices [] svcs) svcs)) = _
      rw [mergeServices_replay svcs hnodups]
    rw [hfirst, hsecond]

/-- C4: merging the same extraction text twice into a fresh (empty)
accumulator yields a record identical to merging it once — equal-length ties
in the "longer string wins" rule keep the existing value, service entries are
re-matched by `Name` and re-updated with the same fields, so the double merge
changes nothing (and a text whose parse raises leaves the accumulator empty
both times). -/
theorem c4_idempotent_remerge (t : S) :
    applyMerge (applyMerge emptyInfo t) t = applyMerge emptyInfo t := by
  unfold applyMerge updateFoundInfo
  cases hp : parseNewInfo t with
  | none => rfl
  | some temp =>
    show mergeTemp (mergeTemp emptyInfo temp) temp = mergeTemp emptyInfo temp
    exact mergeTemp_idem temp (parseNewInfo_maps t temp hp)

/-! ### Sentinel filtering (claim C3) -/

/-- Counterexample to C3 as stated: the sentinel filter compares the *whole*
trimmed value, but a non-`hour` value containing a colon is truncated at its
first colon *after* the filter, so the truncated value stored in the record
can itself be a sentinel: `- Eligibility: not specified: see below` stores the
sentinel string `not specified`. -/
theorem c3_counterexample :
    updateFoundInfo emptyInfo "AGENCY LEVEL:\n- Eligibility: not specified: see below".data
      = some (InfoDict.mk [("Agency Level".data,
          [("- Eligibility".data, "not specified".data)])] none)
    ∧ isSentinel "not specified".data = true := by decide

/-- A service entry stores only trimmed, non-empty, non-sentinel values. -/
def EntryClean (svc : FieldMap) : Prop :=
  ∀ kv ∈ svc, kv.2 ≠ [] ∧ isSentinel kv.2 = false

/-- A non-Services field value is a non-empty non-sentinel parsed value, kept
whole or truncated at its first colon. -/
def ValTraced (v : S) : Prop :=
  ∃ w, w ≠ [] ∧ isSentinel w = false ∧ (v = w ∨ v = beforeFirst ":".data w)

def CleanOk (t : InfoDict) : Prop :=
  (∀ svc ∈ t.services.getD [], EntryClean svc)
    ∧ (∀ sd ∈ t.sectionsF, ∀ kv ∈ sd.2, ValTraced kv.2)

theorem mem_of_mem_dictUpdate (e n : FieldMap) (kv : S × S)
    (h : kv ∈ dictUpdate e n) : kv ∈ e ∨ kv ∈ n := by
  induction n generalizing e with
  | nil => exact Or.inl h
  | cons p n ih =>
    obtain ⟨k, v⟩ := p
    rw [dictUpdate_cons] at h
    rcases ih _ h with h' | h'
    · rcases mem_of_mem_aupd _ _ _ _ h' with h'' | h''
      · exact Or.inl h''
      · exact Or.inr (h'' ▸ List.mem_cons_self _ _)
    · exact Or.inr (List.mem_cons_of_mem _ h')

theorem mem_of_mem_mergeFields (cur data : FieldMap) (kv : S × S)
    (h : kv ∈ mergeFields cur data) : kv ∈ cur ∨ kv ∈ data := by
  induction data generalizing cur with
  | nil => exact Or.inl h
  | cons p data ih =>
    obtain ⟨k, v⟩ := p
    have h' : kv ∈ mergeFields (keepLonger cur (k, v)) data := h
    rcases ih _ h' with h'' | h''
    · unfold keepLonger at h''
      cases hl : alookup cur k with
      | none =>
        rw [hl] at h''
        rcases mem_of_mem_aupd _ _ _ _ h'' with h3 | h3
        · exact Or.inl h3
        · exact Or.inr (h3 ▸ List.mem_cons_self _ _)
      | some old =>
        rw [hl] at h''
        replace h'' : kv ∈ (if v.length > old.length then aupd cur k v else cur) := h''
        by_cases hlen : v.length > old.length
        · rw [if_pos hlen] at h''
          rcases mem_of_mem_aupd _ _ _ _ h'' with h3 | h3
          · exact Or.inl h3
          · exact Or.inr (h3 ▸ List.mem_cons_self _ _)
        · rw [if_neg hlen] at h''
          exact Or.inl h''
    · exact Or.inr (List.mem_cons_of_mem _ h'')

theorem mergeOneService_clean (acc : List FieldMap) (svc : FieldMap)
    (hacc : ∀ e ∈ acc, EntryClean e) (hsvc : EntryClean svc) :
    ∀ e ∈ mergeOneService acc svc, EntryClean e := by
  induction acc with
  | nil =>
    intro e he
    rw [List.mem_singleton.mp he]
    exact hsvc
  | cons a acc ih =>
    rw [mergeOneService_cons]
    by_cases hn : nameOf a = nameOf svc
    · rw [if_pos hn]
      intro e he
      rcases List.mem_cons.mp he with he | he
      · subst he
        intro kv hkv
        rcases mem_of_mem_dictUpdate _ _ _ hkv with h | h
        · exact hacc a (List.mem_cons_self _ _) kv h
        · exact hsvc kv h
      · exact hacc e (List.mem_cons_of_mem _ he)
    · rw [if_neg hn]
      intro e he
      rcases List.mem_cons.mp he with he | he
      · exact he ▸ hacc a (List.mem_cons_self _ _)
      · exact ih (fun e' he' => hacc e' (List.mem_cons_of_mem _ he')) e he

theorem initSection_clean (t : InfoDict) (sec : S) (h : CleanOk t) :
    CleanOk (initSection t sec) := by
  obtain ⟨sf, svcs⟩ := t
  obtain ⟨h1, h2⟩ := h
  unfold initSection
  by_cases hs : sec = "Services".data
  · rw [if_pos hs]
    cases svcs with
    | none => exact ⟨fun svc hsvc => absurd hsvc (List.not_mem_nil _), h2⟩
    | some l => exact ⟨h1, h2⟩
  · rw [if_neg hs]
    cases hl : alookup sf sec with
    | none =>
      refine ⟨h1, ?_⟩
      intro sd hsd
      rcases List.mem_append.mp hsd with hsd | hsd
      · exact h2 sd hsd
      · rw [List.mem_singleton.mp hsd]
        intro kv hkv
        exact absurd hkv (List.not_mem_nil _)
    | some m => exact ⟨h1, h2⟩

theorem svcs1Of_clean (t : InfoDict) (line : S)
    (h1 : ∀ svc ∈ t.services.getD [], EntryClean svc) :
    ∀ svc ∈ svcs1Of t line, EntryClean svc := by
  unfold svcs1Of
  by_cases hn : pyStartsWith "- Name:".data line = true
  · rw [if_pos hn]
    intro svc hsvc
    rcases List.mem_append.mp hsvc with hsvc | hsvc
    · exact h1 svc hsvc
    · rw [List.mem_singleton.mp hsvc]
      intro kv hkv
      exact absurd hkv (List.not_mem_nil _)
  · rw [if_neg hn]
    exact h1

theorem servicesLine_clean (t t' : InfoDict) (line : S)
    (h : servicesLine t line = some t') (hc : CleanOk t) : CleanOk t' := by
  obtain ⟨h1, h2⟩ := hc
  have hsvcs1 : ∀ svc ∈ svcs1Of t line, EntryClean svc := svcs1Of_clean t line h1
  unfold servicesLine at h
  split at h
  · rename_i hcond
    split at h
    · cases h
    · split at h
      · rename_i k0 v0 hval
        injection h with h
        subst h
        refine ⟨?_, h2⟩
        intro svc hsvc
        rcases List.mem_append.mp hsvc with hsvc | hsvc
        · exact hsvcs1 svc (List.dropLast_subset _ hsvc)
        · rw [List.mem_singleton.mp hsvc]
          intro kv hkv
          rcases mem_of_mem_aupd _ _ _ _ hkv with hkv | hkv
          · exact hsvcs1 _ (getLast_getD_mem _ _ hcond.2) kv hkv
          · rw [hkv]
            exact ⟨hval.1, hval.2⟩
      · injection h with h
        subst h
        exact ⟨hsvcs1, h2⟩
  · injection h with h
    subst h
    exact ⟨hsvcs1, h2⟩

theorem fieldsLine_clean (t : InfoDict) (sec line : S) (hc : CleanOk t) :
    CleanOk (fieldsLine t sec line) := by
  obtain ⟨h1, h2⟩ := hc
  unfold fieldsLine
  split
  · exact ⟨h1, h2⟩
  · split
    · rename_i k0 v0 heq0 hcond
      refine ⟨h1, ?_⟩
      intro sd hsd
      rcases mem_of_mem_aupd _ _ _ _ hsd with hsd | hsd
      · exact h2 sd hsd
      · rw [hsd]
        intro kv hkv
        rcases mem_of_mem_aupd _ _ _ _ hkv with hkv | hkv
        · cases hl : alookup t.sectionsF sec with
          | none =>
            rw [hl] at hkv
            exact absurd hkv (List.not_mem_nil _)
          | some m =>
            rw [hl] at hkv
            exact h2 (sec, m) (alookup_mem_pair _ _ _ hl) kv hkv
        · rw [hkv]
          refine ⟨pyStrip v0, hcond.2.1, hcond.2.2, ?_⟩
          by_cases hh : pyIn "hour".data (pyLower (pyStrip k0)) = true
            ∧ pyIn ":".data (pyStrip v0) = true
          · rw [if_pos hh]
            exact Or.inl rfl
          · rw [if_neg hh]
            exact Or.inr rfl
    · exact ⟨h1, h2⟩

theorem parseDispatch_clean (ps1 ps' : ParseSt) (line : S)
    (h : parseDispatch ps1 line = some ps') (hc : CleanOk ps1.temp) : CleanOk ps'.temp := by
  unfold parseDispatch at h
  by_cases hs : ps1.csection = some "Services".data
  · rw [if_pos hs] at h
    cases hsl : servicesLine ps1.temp line with
    | none => rw [hsl] at h; cases h
    | some t =>
      rw [hsl] at h
      injection h with h
      subst h
      exact servicesLine_clean _ _ _ hsl hc
  · rw [if_neg hs] at h
    by_cases hcnd : pyIn ":".data line = true ∧ ¬ pyStartsWith "http".data line = true
    · rw [if_pos hcnd] at h
      cases hcs : ps1.csection with
      | none =>
        rw [hcs] at h
        injection h with h
        subst h
        exact hc
      | some sec =>
        rw [hcs] at h
        injection h with h
        subst h
        exact fieldsLine_clean _ _ _ hc
    · rw [if_neg hcnd] at h
      injection h with h
      subst h
      exact hc

theorem parseLine_clean (ps ps' : ParseSt) (line0 : S)
    (h : parseLine ps line0 = some ps') (hc : CleanOk ps.temp) : CleanOk ps'.temp := by
  unfold parseLine at h
  by_cases h0 : pyStrip line0 = []
  · rw [if_pos h0] at h
    injection h with h
    subst h
    exact hc
  · rw [if_neg h0] at h
    cases hh : headerFor (pyUpper (pyStrip line0)) with
    | none =>
      rw [hh] at h
      exact parseDispatch_clean _ _ _ h hc
    | some hd =>
      rw [hh] at h
      exact parseDispatch_clean _ _ _ h (initSection_clean _ _ hc)

theorem foldParse_clean (lines : List S) (ps : ParseSt) (res : ParseSt)
    (hc : CleanOk ps.temp)
    (h : lines.foldl (fun acc l => acc.bind (fun ps => parseLine ps l)) (some ps)
      = some res) : CleanOk res.temp := by
  induction lines generalizing ps with
  | nil =>
    injection h with h
    subst h
    exact hc
  | cons l ls ih =>
    rw [List.foldl_cons] at h
    cases hpl : parseLine ps l with
    | none =>
      rw [show (some ps).bind (fun ps => parseLine ps l) = none from hpl,
        foldParse_none] at h
      cases h
    | some ps1 =>
      rw [show (some ps).bind (fun ps => parseLine ps l) = some ps1 from hpl] at h
      exact ih ps1 (parseLine_clean _ _ _ hpl hc) h

theorem parseNewInfo_clean (text : S) (temp : InfoDict)
    (h : parseNewInfo text = some temp) : CleanOk temp := by
  unfold parseNewInfo at h
  cases hf : (pySplit "\n".data text).foldl
      (fun acc l => acc.bind (fun ps => parseLine ps l)) (some (ParseSt.mk none emptyInfo)) with
  | none => rw [hf] at h; cases h
  | some res =>
    rw [hf] at h
    injection h with h
    subst h
    exact foldParse_clean _ _ _
      ⟨fun svc hsvc => absurd hsvc (List.not_mem_nil _),
        fun sd hsd => absurd hsd (List.not_mem_nil _)⟩ hf

theorem mergeSections_clean (sds : List (S × FieldMap)) (acc : InfoDict)
    (hsds : ∀ sd ∈ sds, ∀ kv ∈ sd.2, ValTraced kv.2)
    (hacc : ∀ sd ∈ acc.sectionsF, ∀ kv ∈ sd.2, ValTraced kv.2) :
    (∀ sd ∈ (sds.foldl mergeSectionStep acc).sectionsF, ∀ kv ∈ sd.2, ValTraced kv.2)
      ∧ (sds.foldl mergeSectionStep acc).services = acc.services := by
  induction sds generalizing acc with
  | nil => exact ⟨hacc, rfl⟩
  | cons sd0 sds ih =>
    obtain ⟨sec, data⟩ := sd0
    have hstep : ∀ sd ∈ (mergeSectionStep acc (sec, data)).sectionsF,
        ∀ kv ∈ sd.2, ValTraced kv.2 := by
      intro sd hsd
      unfold mergeSectionStep at hsd
      rcases mem_of_mem_aupd _ _ _ _ hsd with hsd | hsd
      · exact hacc sd hsd
      · rw [hsd]
        intro kv hkv
        rcases mem_of_mem_mergeFields _ _ _ hkv with hkv | hkv
        · cases hl : alookup acc.sectionsF sec with
          | none =>
            rw [hl] at hkv
            exact absurd hkv (List.not_mem_nil _)
          | some m =>
            rw [hl] at hkv
            exact hacc (sec, m) (alookup_mem_pair _ _ _ hl) kv hkv
        · exact hsds (sec, data) (List.mem_cons_self _ _) kv hkv
    have hsvc : (mergeSectionStep acc (sec, data)).services = acc.services := rfl
    have := ih (mergeSectionStep acc (sec, data))
      (fun sd hsd => hsds sd (List.mem_cons_of_mem _ hsd)) hstep
    exact ⟨this.1, this.2.trans hsvc⟩

theorem mergeTemp_clean (found temp : InfoDict) (hf : CleanOk found)
    (ht : CleanOk temp) : CleanOk (mergeTemp found temp) := by
  obtain ⟨hf1, hf2⟩ := hf
  obtain ⟨ht1, ht2⟩ := ht
  have hsections := mergeSections_clean temp.sectionsF found ht2 hf2
  unfold mergeTemp
  cases hts : temp.services with
  | none => exact ⟨by rw [hsections.2]; exact hf1, hsections.1⟩
  | some svcs =>
    refine ⟨?_, hsections.1⟩
    show ∀ svc ∈ (some (mergeServices
      ((temp.sectionsF.foldl mergeSectionStep found).services.getD []) svcs)).getD [],
      EntryClean svc
    rw [Option.getD_some]
    have hbase : ∀ e ∈ (temp.sectionsF.foldl mergeSectionStep found).services.getD [],
        EntryClean e := by
      rw [hsections.2]
      exact hf1
    have hsvcs : ∀ s ∈ svcs, EntryClean s := by
      intro s hs
      apply ht1
      rw [hts]
      exact hs
    have main : ∀ (L : List FieldMap) (acc : List FieldMap),
        (∀ e ∈ acc, EntryClean e) → (∀ s ∈ L, EntryClean s) →
        ∀ e ∈ mergeServices acc L, EntryClean e := by
      intro L
      induction L with
      | nil => exact fun acc ha _ => ha
      | cons s L ihL =>
        intro acc ha hs
        exact ihL _ (mergeOneService_clean _ _ ha (hs s (List.mem_cons_self _ _)))
          (fun s' hs' => hs s' (List.mem_cons_of_mem _ hs'))
    exact main svcs _ hbase hsvcs

/-- The accumulator after merging any sequence of page texts from empty. -/
def mergeAll (ts : List S) : InfoDict := ts.foldl applyMerge emptyInfo

/-- C3 amended: values wholly equal (case-insensitively) to one of the
sentinels `"(missing)"`, `"(not mentioned)"`, `"not specified"`,
`"not available"` are filtered out before merge, so after any sequence of
merges no Services-entry field ever stores an empty or sentinel value; in the
other sections every stored value is a non-empty non-sentinel parsed value
kept whole or truncated at its first colon — and such a truncated value can
itself be a sentinel (see the counterexample), which is the one exception to
the claim. -/
theorem c3_sentinel_filtering (ts : List S) :
    (∀ svc ∈ (mergeAll ts).services.getD [], ∀ kv ∈ svc,
      kv.2 ≠ [] ∧ isSentinel kv.2 = false)
    ∧ (∀ sd ∈ (mergeAll ts).sectionsF, ∀ kv ∈ sd.2,
      ∃ w, w ≠ [] ∧ isSentinel w = false
        ∧ (kv.2 = w ∨ kv.2 = beforeFirst ":".data w)) := by
  have main : ∀ (ts : List S) (acc : InfoDict), CleanOk acc → CleanOk (ts.foldl applyMerge acc) := by
    intro ts
    induction ts with
    | nil => exact fun acc h => h
    | cons t ts ih =>
      intro acc h
      refine ih _ ?_
      unfold applyMerge updateFoundInfo
      cases hp : parseNewInfo t with
      | none => exact h
      | some temp => exact mergeTemp_clean _ _ h (parseNewInfo_clean _ _ hp)
  have := main ts emptyInfo
    ⟨fun svc hsvc => absurd hsvc (List.not_mem_nil _),
      fun sd hsd => absurd hsd (List.not_mem_nil _)⟩
  exact ⟨this.1, this.2⟩

/-! ### Failure isolation (claim C2) -/

theorem mem_insertSet_self (l : List S) (x : S) : x ∈ insertSet l x := by
  unfold insertSet
  split
  · assumption
  · exact List.mem_append.mpr (Or.inr (List.mem_singleton.mpr rfl))

/-- A visit whose fetch raises is absorbed at its own boundary: the call
returns normally, with the URL recorded in `failed_urls` and no other state
change beyond the visit bookkeeping (lines 168-182). -/
theorem analyzeWebsite_error_step (fetch : Fetcher) (llm : Oracle) (d : Nat) (st : St)
    (url : S) (custom : Option S) (eMsg : S)
    (hguard : ¬ (url ∈ st.visited ∨ url ∈ st.failed))
    (hfetch : fetch url = Except.error eMsg) :
    analyzeWebsite fetch llm (d + 1) st url custom
      = (AResult.mk (formatFinalResults (failMark (baseMark (visitMark st url) url) url))
          (RMeta.fetchError url eMsg),
        failMark (baseMark (visitMark st url) url) url) := by
  show (if url ∈ st.visited ∨ url ∈ st.failed then skipRes st url else _) = _
  rw [if_neg hguard]
  simp only [hfetch]

/-- C2: if page A is fetched and analysed successfully, its single extracted
next-URL B is fresh, and fetching B raises, then the error is absorbed at B's
visit boundary: the whole call still returns a page result, B is added to the
failed set, and the final state's `found_info` — hence the final report — is
exactly the accumulator produced by A's analysis, so every field merged from A
survives the failure at B. -/
theorem c2_failure_isolation
    (fetch : Fetcher) (llm : Oracle) (d : Nat) (st0 st3 st4 : St)
    (urlA urlB : S) (sd : ScrapedData) (meta : ScrapedMeta) (analysisA eMsg : S)
    (hguard : ¬ (urlA ∈ st0.visited ∨ urlA ∈ st0.failed))
    (hfetch : fetch urlA = Except.ok sd)
    (hst3 : st3 = linksMark (baseMark (visitMark st0 urlA) urlA) sd.metadata.internal_links)
    (hmeta : meta = metaOf sd st3)
    (hac : analyzeContent llm st3 (ScrapedData.mk sd.content meta) none
      = some (analysisA, st4))
    (hin : pyIn "NEXT_URL:".data analysisA = true)
    (hext : extractNextUrls st4 analysisA meta.internal_links = [urlB])
    (hfreshV : urlB ∉ st4.visited) (hfreshF : urlB ∉ st4.failed)
    (hfetchB : fetch urlB = Except.error eMsg) :
    analyzeWebsite fetch llm (d + 2) st0 urlA none
      = (AResult.mk
          (formatFinalResults (failMark (baseMark (visitMark st4 urlB) urlB) urlB))
          (RMeta.page meta),
        failMark (baseMark (visitMark st4 urlB) urlB) urlB)
    ∧ urlB ∈ (failMark (baseMark (visitMark st4 urlB) urlB) urlB).failed
    ∧ (failMark (baseMark (visitMark st4 urlB) urlB) urlB).found_info = st4.found_info := by
  subst hst3 hmeta
  refine ⟨?_, ?_, ?_⟩
  · show (if urlA ∈ st0.visited ∨ urlA ∈ st0.failed then skipRes st0 urlA else _) = _
    rw [if_neg hguard]
    simp only [hfetch, hac, hin, hext, List.foldl_cons, List.foldl_nil, if_true]
    rw [if_pos ⟨hfreshV, hfreshF⟩,
      analyzeWebsite_error_step fetch llm d st4 urlB none eMsg
        (by rintro (h | h); exacts [hfreshV h, hfreshF h]) hfetchB]
  · show urlB ∈ insertSet _ urlB
    unfold baseMark
    split <;> exact mem_insertSet_self _ _
  · unfold failMark baseMark visitMark
    split <;> rfl

/-- A concrete two-page crawl for exercising failure isolation: the model
always reports one agency field and the next URL `http://h/b`. -/
def c2text : S :=
  "NEW_INFO:\nAGENCY LEVEL:\n- Agency Name: Acme\nSTILL_MISSING:\nNEXT_URL:\nhttp://h/b".data

def c2llm : Oracle := fun _ => c2text

def c2sd : ScrapedData :=
  ScrapedData.mk "page".data (ScrapedMeta.mk "T".data "http://h".data ["http://h/b".data])

/-- Fetching succeeds only for the start page; the linked page raises. -/
def c2fetch : Fetcher := fun u =>
  if u = "http://h".data then Except.ok c2sd else Except.error "boom".data

def c2st3 : St := linksMark (baseMark (visitMark emptySt "http://h".data) "http://h".data)
  c2sd.metadata.internal_links

def c2meta : ScrapedMeta := metaOf c2sd c2st3

/-- The state after the start page's analysis: one field merged from page A. -/
def c2st4 : St := St.mk ["http://h".data] [] (some "http://h".data)
  (InfoDict.mk [("Agency Level".data, [("- Agency Name".data, "Acme".data)])] none)
  [] ["http://h/b".data]

/-- Witness for C2 on the concrete two-page crawl. -/
theorem c2_failure_isolation_witness :
    analyzeWebsite c2fetch c2llm 2 emptySt "http://h".data none
      = (AResult.mk
          (formatFinalResults (failMark (baseMark (visitMark c2st4 "http://h/b".data)
            "http://h/b".data) "http://h/b".data))
          (RMeta.page c2meta),
        failMark (baseMark (visitMark c2st4 "http://h/b".data) "http://h/b".data)
          "http://h/b".data)
    ∧ "http://h/b".data ∈ (failMark (baseMark (visitMark c2st4 "http://h/b".data)
        "http://h/b".data) "http://h/b".data).failed
    ∧ (failMark (baseMark (visitMark c2st4 "http://h/b".data) "http://h/b".data)
        "http://h/b".data).found_info = c2st4.found_info :=
  c2_failure_isolation c2fetch c2llm 0 emptySt c2st3 c2st4 "http://h".data "http://h/b".data
    c2sd c2meta c2text "boom".data
    (by decide) rfl rfl rfl (by decide) (by decide) (by decide)
    (by decide) (by decide) rfl
